import Mathlib

/-!
Shallow embedding of the FlashStorage library (src/FlashStorage.hpp,
src/FlashStorage.cpp): a sequential, FAT-like file store on a raw NOR
flash chip.

Modelling conventions:
* `unsigned long` / `unsigned int` values are modelled as `Nat` with an
  explicit `% 2^32` (written through `mod32` / `sub32`) wherever the C++
  arithmetic can wrap.  (The spec types these fields as `u32`.)
* The flash device (the W25Q64 driver, an external collaborator that lives
  under `lib/W25Q64/`, outside `src/`) is modelled from the spec, see the
  `sectorErase` / `pageProgram` / `fastRead` definitions below.
* Fallible device calls that the C++ code branches on are passed in as
  explicit inputs (`W25Q64Status`, `Bool` busy flags).
* `byte` arrays are `Nat → Nat` maps (or `List Nat`); storing into a byte
  truncates modulo 256, which the flash-program model performs via `&&&`.
-/

namespace FlashStorage

/-- 32-bit truncation of a natural number (`unsigned long` arithmetic). -/
def mod32 (n : Nat) : Nat := n % 2 ^ 32

/-- 32-bit unsigned subtraction `a - b` (wraps around on underflow). -/
def sub32 (a b : Nat) : Nat := (a % 2 ^ 32 + (2 ^ 32 - b % 2 ^ 32)) % 2 ^ 32

/-- Reinterpret a 32-bit unsigned value as a signed `int` (two's complement). -/
def toInt32 (n : Nat) : Int :=
  if n % 2 ^ 32 < 2 ^ 31 then (n % 2 ^ 32 : Int) else (n % 2 ^ 32 : Int) - 2 ^ 32

/-- `FlashStorage_status_t` from src/FlashStorage.hpp. -/
inductive Status where
  | ok
  | flash_fail
  | busy
  | no_fat_found
  | no_space
  | invalid_file
  | wrong_mode
  deriving DecidableEq, Repr

/-- `W25Q64_status_t` of the flash driver (only the distinctions the core
branches on). Modelled from the spec: the driver itself is an external
collaborator outside `src/`. -/
inductive W25Q64Status where
  | ok
  | busy
  | fail
  deriving DecidableEq, Repr

/-- `FlashStorageMode` from src/FlashStorage.hpp. -/
inductive FlashStorageMode where
  | no_mode
  | read_mode
  | write_mode
  deriving DecidableEq, Repr

/-- `FlashStorageFile` from src/FlashStorage.hpp. -/
structure FlashStorageFile where
  start_addr : Nat
  end_addr : Nat
  deriving DecidableEq, Repr

/-- `FlashStorageFAT` from src/FlashStorage.hpp.  The C++ fixed array
`files[FLASH_STORAGE_MAX_FILE_NUMBER]` is modelled as a total map so that
the out-of-range accesses the code can perform (e.g. `files[-1]` through an
unsigned index of 0) stay well-defined junk slots instead of aborting. -/
structure FlashStorageFAT where
  files : Nat → FlashStorageFile
  file_count : Nat

/-- A device command issued to the flash chip (used to state scheduling
properties about which erases/programs the store requests). -/
inductive DevOp where
  | sectorErase (addr : Nat)
  | pageProgram (addr : Nat) (len : Nat)
  deriving DecidableEq, Repr

/-- The whole store: the `FlashStorage` object's fields plus the modelled
device (flash contents and the trace of issued erase/program commands). -/
structure State where
  /-- Byte content of the flash chip at each address. Modelled from the spec:
  the device is the external W25Q64 driver. -/
  flash : Nat → Nat
  /-- Erase/program commands issued to the device so far. -/
  trace : List DevOp
  /-- `_buff`, the FIFO accumulation buffer (capacity 1024). -/
  buff : Nat → Nat
  /-- `_buff_index`. -/
  buff_index : Nat
  /-- `_opened_file` (1-indexed; 0 = none). -/
  opened_file : Nat
  /-- `_curr_addr`. -/
  curr_addr : Nat
  /-- `_max_erased_addr`. -/
  max_erased_addr : Nat
  /-- `_lookahead_erase_size` (defaults to 1024). -/
  lookahead_erase_size : Nat
  /-- `_fat`. -/
  fat : FlashStorageFAT
  /-- `_mode`. -/
  mode : FlashStorageMode

/-- Modelled from the spec: `W25Q64::sectorErase(addr)` resets every byte of
the 4096-byte sector containing `addr` to the erased value `0xFF`. -/
def sectorEraseOp (s : State) (addr : Nat) : State :=
  { s with
    flash := fun a => if a / 4096 = addr / 4096 then 255 else s.flash a
    trace := s.trace ++ [DevOp.sectorErase addr] }

/-- Modelled from the spec: `W25Q64::pageProgram(addr, buf, len)` programs
`len` bytes starting at `addr`; NOR programming can only clear bits, so the
stored byte is the bitwise AND of the previous content with the data byte. -/
def pageProgramOp (s : State) (addr : Nat) (data : Nat → Nat) (len : Nat) : State :=
  { s with
    flash := fun a =>
      if addr ≤ a ∧ a < addr + len then Nat.land (s.flash a) (data (a - addr)) else s.flash a
    trace := s.trace ++ [DevOp.pageProgram addr len] }

/-- Modelled from the spec: `W25Q64::fastRead(addr, buf, len)` returns the
`len` stored bytes starting at `addr`. -/
def fastReadOp (s : State) (addr len : Nat) : List Nat :=
  (List.range len).map fun i => s.flash (addr + i)

/-- `FLASH_STORAGE_IDENTIFICATION_STRING` `"FLASH"` as stored by
`strcpy` — five letters plus the terminating 0. -/
def identificationString : List Nat := [70, 76, 65, 83, 72, 0]

/-- The 5 record bytes emitted per file by `FlashStorage::writeFAT`
(src/FlashStorage.cpp lines 313-317): `start>>16, start>>8, end>>16,
end>>8, end` — each truncated to a byte. -/
def fatRecordBytes (r : FlashStorageFile) : List Nat :=
  [r.start_addr >>> 16 % 256, r.start_addr >>> 8 % 256,
   r.end_addr >>> 16 % 256, r.end_addr >>> 8 % 256, r.end_addr % 256]

/-- The byte image of the FAT built by `FlashStorage::writeFAT`
(src/FlashStorage.cpp lines 304-324): identification string, file count
byte, opened-file byte, then 5 bytes per record. -/
def fatEncode (fat : FlashStorageFAT) (opened : Nat) : List Nat :=
  identificationString ++ [fat.file_count % 256, opened % 256] ++
    ((List.range fat.file_count).map (fun i => fatRecordBytes (fat.files i))).flatten

/-- Start-address reconstruction in `FlashStorage::readFAT`
(src/FlashStorage.cpp line 281): `(b0 << 8 | b1) << 8`. -/
def fatDecodeStart (b0 b1 : Nat) : Nat :=
  mod32 ((b0 <<< 8 ||| b1) <<< 8)

/-- End-address reconstruction in `FlashStorage::readFAT`
(src/FlashStorage.cpp line 282).  The C++ source is
`(b2 << 8 | b3) << 8 + b4`; because `+` binds tighter than `<<` this is
`(b2 << 8 | b3) << (8 + b4)`, not `((b2 << 8 | b3) << 8) + b4`.
(For `8 + b4 ≥ 32` the C++ shift is undefined behaviour; the model takes
the mathematical value truncated to 32 bits.) -/
def fatDecodeEnd (b2 b3 b4 : Nat) : Nat :=
  mod32 ((b2 <<< 8 ||| b3) <<< (8 + b4))

/-- The parsing half of `FlashStorage::readFAT` (src/FlashStorage.cpp lines
269-293), as a function of the bytes read from flash addresses 0..:
check the identification string, then take the count byte and decode
`count` records (5 bytes each, starting at offset 8).  Records beyond the
decoded count keep their previous in-memory value, as the C++ loop does. -/
def readFATParse (prev : FlashStorageFAT) (bytes : List Nat) :
    FlashStorageFAT × Status :=
  if bytes.take 6 = identificationString then
    let n := bytes.getD 6 0
    ({ files := fun i =>
        if i < n then
          { start_addr :=
              fatDecodeStart (bytes.getD (8 + 5 * i) 0) (bytes.getD (8 + 5 * i + 1) 0)
            end_addr :=
              fatDecodeEnd (bytes.getD (8 + 5 * i + 2) 0) (bytes.getD (8 + 5 * i + 3) 0)
                (bytes.getD (8 + 5 * i + 4) 0) }
        else prev.files i
       file_count := n }, Status.ok)
  else ({ prev with file_count := 0 }, Status.no_fat_found)

/-- The chunk-size computation shared by the program loops of
`FlashStorage::writeFIFO` (src/FlashStorage.cpp lines 236-238) and
`FlashStorage::writeFAT` (lines 333-335):
`int size = (total-offset) - p*256; if(size<0) size+=256; if(size>256) size=256;`
computed in 32-bit unsigned arithmetic then reinterpreted as `int`. -/
def chunkSize (total offset p : Nat) : Nat :=
  let s0 : Int := toInt32 (sub32 (sub32 total offset) (mod32 (256 * p)))
  let s1 : Int := if s0 < 0 then s0 + 256 else s0
  (if s1 > 256 then (256 : Int) else s1).toNat

/-- The page-program loop of `FlashStorage::writeFIFO`
(src/FlashStorage.cpp lines 230-245), iterated `iters` times starting at
chunk index `p`: program `chunkSize` bytes of `_buff` (from offset
`p*256+offset`) at `_curr_addr` and advance `_curr_addr`. -/
def fifoChunkLoop (buf : Nat → Nat) (total offset : Nat) :
    Nat → Nat → State → State
  | 0, _, s => s
  | n + 1, p, s =>
    let size := chunkSize total offset p
    let s' := pageProgramOp s s.curr_addr (fun j => buf (256 * p + offset + j)) size
    fifoChunkLoop buf total offset n (p + 1)
      { s' with curr_addr := mod32 (s'.curr_addr + size) }

/-- `FlashStorage::writeFIFO` (src/FlashStorage.cpp lines 207-255).
Note on line 221: `(_curr_addr>>8+1<<8) - _curr_addr` parses as
`((_curr_addr >> 9) << 8) - _curr_addr` (unsigned), which is what the
model computes. -/
def writeFIFO (s : State) : State × Status :=
  -- lines 210-215: erase the next sector first if the buffer would reach it
  let s :=
    if mod32 (s.curr_addr + s.buff_index) ≥ s.max_erased_addr then
      let s' := sectorEraseOp s s.max_erased_addr
      { s' with max_erased_addr := mod32 (s'.max_erased_addr + 4096) }
    else s
  -- lines 218-229: if not page aligned, program out the current page first
  let so :=
    if s.curr_addr % 256 ≠ 0 then
      let remaining := sub32 ((s.curr_addr >>> 9) <<< 8) s.curr_addr
      let s' := pageProgramOp s s.curr_addr (fun j => s.buff j) remaining
      ({ s' with curr_addr := mod32 (s'.curr_addr + remaining) }, remaining)
    else (s, 0)
  let s := so.1
  let offset := so.2
  -- lines 230-245: program the rest in chunks of at most one page
  let iters := sub32 s.buff_index offset / 256 + 1
  let s := fifoChunkLoop s.buff s.buff_index offset iters 0 s
  -- line 249
  ({ s with buff_index := 0 }, Status.ok)

/-- The page-program loop of `FlashStorage::writeFAT`
(src/FlashStorage.cpp lines 327-338).  Each chunk is programmed at
address 0 (the C++ passes `0`, not `p*256`, as the program address). -/
def fatProgLoop (bytes : List Nat) (total : Nat) : Nat → Nat → State → State
  | 0, _, s => s
  | n + 1, p, s =>
    let size := chunkSize total 0 p
    let s' := pageProgramOp s 0 (fun j => bytes.getD (256 * p + j) 0) size
    fatProgLoop bytes total n (p + 1) s'

/-- `FlashStorage::writeFAT` (src/FlashStorage.cpp lines 296-345) in the
ideal-device model (every call site busy-waits first, so the `busy()`
precondition check at line 300 is passed): erase sector 0, then program the
encoded table. -/
def writeFAT (s : State) : State × Status :=
  let s := sectorEraseOp s 0
  let bytes := fatEncode s.fat s.opened_file
  let total := bytes.length
  (fatProgLoop bytes total (total / 256 + 1) 0 s, Status.ok)

/-- `FlashStorage::eraseNextSector` (src/FlashStorage.cpp lines 347-356);
`busy` is the value the device's `busy()` poll returns. -/
def eraseNextSector (s : State) (busy : Bool) : State × Status :=
  if busy then (s, Status.busy)
  else
    let s := sectorEraseOp s s.max_erased_addr
    ({ s with max_erased_addr := mod32 (s.max_erased_addr + 4096) }, Status.ok)

/-- `FlashStorage::close` (src/FlashStorage.cpp lines 92-120).
Lines 110 and 117 read `_mode == FLASH_STORAGE_NO_MODE;` — an effect-free
comparison, not an assignment — so the mode field is left unchanged in
both branches, exactly as in the source. -/
def close (s : State) : State × Status :=
  match s.mode with
  | FlashStorageMode.no_mode => (s, Status.ok)
  | FlashStorageMode.write_mode =>
    let s := (writeFIFO s).1
    let idx := sub32 s.opened_file 1
    let s := { s with fat :=
      { s.fat with files := fun i =>
          if i = idx then { s.fat.files i with end_addr := s.curr_addr }
          else s.fat.files i } }
    let s := { s with opened_file := 0 }
    let s := (writeFAT s).1
    ({ s with curr_addr := 0, max_erased_addr := 0 }, Status.ok)
  | FlashStorageMode.read_mode =>
    ({ s with opened_file := 0, curr_addr := 0, max_erased_addr := 0 }, Status.ok)

/-- `FlashStorage::newFile` (src/FlashStorage.cpp lines 42-74). -/
def newFile (s : State) : State × Status :=
  let s := (close s).1
  if mod32 (s.fat.file_count + 1) < 32 then
    let new_addr :=
      if s.fat.file_count ≠ 0 then
        mod32 ((((s.fat.files (s.fat.file_count - 1)).end_addr >>> 12) + 1) <<< 12)
      else 4096
    let count' := mod32 (s.fat.file_count + 1)
    let s := { s with fat :=
      { files := fun i =>
          if i = sub32 count' 1 then { start_addr := new_addr, end_addr := new_addr }
          else s.fat.files i
        file_count := count' } }
    let s := { s with opened_file := count', mode := FlashStorageMode.write_mode }
    let s := sectorEraseOp s new_addr
    let s := { s with curr_addr := new_addr, max_erased_addr := mod32 (new_addr + 4096) }
    writeFAT s
  else (s, Status.no_space)

/-- `FlashStorage::openFile` (src/FlashStorage.cpp lines 76-90). -/
def openFile (s : State) (file_index : Nat) : State × Status :=
  let s := (close s).1
  if file_index > s.fat.file_count then (s, Status.invalid_file)
  else
    let s := { s with opened_file := file_index }
    let s := { s with
      curr_addr := (s.fat.files (sub32 s.opened_file 1)).start_addr
      mode := FlashStorageMode.read_mode }
    (s, Status.ok)

/-- `FlashStorage::read` (src/FlashStorage.cpp lines 158-177); `devStatus`
is the status the device's `fastRead` returns.  The result is the new
state, the byte count returned, and the bytes delivered to the caller. -/
def read (s : State) (devStatus : W25Q64Status) (length : Nat) :
    State × Nat × List Nat :=
  if s.mode ≠ FlashStorageMode.read_mode then (s, 0, [])
  else
    let endA := (s.fat.files (sub32 s.opened_file 1)).end_addr
    let length :=
      if length > sub32 endA s.curr_addr then sub32 endA s.curr_addr else length
    if devStatus ≠ W25Q64Status.ok then (s, 0, [])
    else
      ({ s with curr_addr := mod32 (s.curr_addr + length) }, length,
        fastReadOp s s.curr_addr length)

/-- `FlashStorage::peek` (src/FlashStorage.cpp lines 179-183). -/
def peek (s : State) : Nat :=
  if s.mode ≠ FlashStorageMode.read_mode then 0
  else sub32 ((s.fat.files (sub32 s.opened_file 1)).end_addr) s.curr_addr

/-- `memcpy(&_buff[dst], &src[srcOff], len)` into the FIFO buffer. -/
def memcpyBuff (s : State) (dst : Nat) (src : List Nat) (srcOff len : Nat) : State :=
  { s with buff := fun j =>
      if dst ≤ j ∧ j < dst + len then src.getD (srcOff + (j - dst)) 0 else s.buff j }

/-- The refill-and-flush loop of `FlashStorage::write`
(src/FlashStorage.cpp lines 139-145): while a whole buffer still fits,
copy 1024 bytes, flush, advance `index`.  Returns the state and the final
`index`. -/
def writeLoop (s : State) (data : List Nat) (index : Nat) : State × Nat :=
  if index + 1024 < data.length then
    let s := memcpyBuff s 0 data index 1024
    let s := { s with buff_index := 1024 }
    let s := (writeFIFO s).1
    writeLoop s data (index + 1024)
  else (s, index)
termination_by data.length - index
decreasing_by simp_wf; omega

/-- `FlashStorage::write` (src/FlashStorage.cpp lines 122-156).  `data` is
the caller's buffer (its length is the `length` argument); `busy` is the
device `busy()` poll inside the optional trailing `eraseNextSector`. -/
def write (s : State) (data : List Nat) (busy : Bool) : State × Status :=
  if s.mode ≠ FlashStorageMode.write_mode then (s, Status.wrong_mode)
  else
    let length := data.length
    let remaining := sub32 1024 s.buff_index
    let s :=
      if remaining > length then
        -- lines 127-131: plain copy into the buffer
        let s := memcpyBuff s s.buff_index data 0 length
        { s with buff_index := mod32 (s.buff_index + length) }
      else
        -- lines 132-149: fill, flush, loop, then buffer the remainder
        let s := memcpyBuff s s.buff_index data 0 remaining
        let s := { s with buff_index := mod32 (s.buff_index + remaining) }
        let s := (writeFIFO s).1
        let si := writeLoop s data remaining
        let s := memcpyBuff si.1 0 data si.2 (sub32 length si.2)
        { s with buff_index := mod32 (s.buff_index + sub32 length si.2) }
    -- lines 151-154: look-ahead erase trigger
    if s.curr_addr > sub32 s.max_erased_addr s.lookahead_erase_size then
      eraseNextSector s busy
    else (s, Status.ok)

/-- The sector-erase addresses contained in a device trace, in order. -/
def eraseAddrs (t : List DevOp) : List Nat :=
  t.filterMap fun op => match op with
    | DevOp.sectorErase a => some a
    | DevOp.pageProgram _ _ => none

/-- The ascending list of sector boundaries `start, start+4096, …, fr-4096`. -/
def sectorList (start fr : Nat) : List Nat :=
  (List.range ((fr - start) / 4096)).map fun k => start + 4096 * k

/-- `foldl` application of a list of `write` calls (each with its data and
the `busy()` answer its look-ahead erase would see). -/
def applyWrites (s : State) (ws : List (List Nat × Bool)) : State :=
  ws.foldl (fun s w => (write s w.1 w.2).1) s

/-! ### Arithmetic helpers -/

theorem mod32_small {n : Nat} (h : n < 2 ^ 32) : mod32 n = n := Nat.mod_eq_of_lt h

theorem sub32_small {a b : Nat} (hb : b ≤ a) (ha : a < 2 ^ 32) :
    sub32 a b = a - b := by
  unfold sub32
  have hb' : b < 2 ^ 32 := lt_of_le_of_lt hb ha
  rw [Nat.mod_eq_of_lt ha, Nat.mod_eq_of_lt hb']
  omega

theorem sub32_sub {a b : Nat} (hb : b ≤ a) (h : a - b < 2 ^ 32) :
    sub32 a b = a - b := by
  unfold sub32
  omega

theorem land_255 (d : Nat) : Nat.land 255 d = d % 256 := by
  have : Nat.land 255 d = d &&& 255 := Nat.land_comm 255 d
  rw [this]
  exact Nat.and_pow_two_sub_one_eq_mod d 8

theorem lor_small (a b : Nat) (h : b < 256) : a <<< 8 ||| b = a * 256 + b := by
  rw [Nat.shiftLeft_eq]
  apply Nat.eq_of_testBit_eq
  intro j
  rw [Nat.testBit_lor]
  rw [show a * 256 + b = 2 ^ 8 * a + b by ring]
  rw [Nat.testBit_mul_pow_two_add a (show b < 2 ^ 8 from h) j]
  rcases Nat.lt_or_ge j 8 with hj | hj
  · rw [if_pos hj]
    rw [show a * 2 ^ 8 = 2 ^ 8 * a by ring, Nat.testBit_mul_pow_two]
    simp [Nat.not_le.mpr (show j < 8 from hj)]
  · rw [if_neg (Nat.not_lt.mpr hj)]
    rw [show a * 2 ^ 8 = 2 ^ 8 * a by ring, Nat.testBit_mul_pow_two]
    have hb : b.testBit j = false :=
      Nat.testBit_eq_false_of_lt
        (lt_of_lt_of_le h (Nat.pow_le_pow_right (by norm_num : 1 ≤ 2) hj))
    simp [hj, hb]

theorem chunkSize_le (total offset p : Nat) : chunkSize total offset p ≤ 256 := by
  simp only [chunkSize, toInt32, sub32, mod32]
  split_ifs <;> omega

theorem chunkSize_eq {total p : Nat} (hp : 256 * p ≤ total) (ht : total < 2 ^ 31) :
    chunkSize total 0 p = min 256 (total - 256 * p) := by
  simp only [chunkSize, toInt32, sub32, mod32]
  split_ifs <;> omega

/-! ### Concrete states used by the evaluation theorems and witnesses -/

/-- A freshly booted store over a blank chip: no session, empty FAT,
empty buffer. -/
def cleanState : State :=
  { flash := fun _ => 0
    trace := []
    buff := fun _ => 0
    buff_index := 0
    opened_file := 0
    curr_addr := 0
    max_erased_addr := 0
    lookahead_erase_size := 1024
    fat := { files := fun _ => ⟨0, 0⟩, file_count := 0 }
    mode := FlashStorageMode.no_mode }

/-- A store state whose write cursor is not page aligned
(`_curr_addr = 4224 = 4096 + 128`) with 100 bytes buffered. -/
def misalignedState : State :=
  { cleanState with
    curr_addr := 4224
    buff_index := 100
    max_erased_addr := 8192
    mode := FlashStorageMode.write_mode }

/-- The store right after a successful `newFile` on a fresh boot:
mode is Writing, file 1 is open. -/
def writingState : State := (newFile cleanState).1

/-! ### Evaluation theorems for the two parser/precedence slips and the
ineffective mode reset -/

/-- C2: refuted on the code.  When the write cursor is not page aligned
(here `_curr_addr = 4224`, 128 bytes below the next 256-byte boundary),
the first `pageProgram` issued by `writeFIFO` is not the 128-byte chunk up
to the boundary: line 221 `(_curr_addr>>8+1<<8) - _curr_addr` parses as
`((_curr_addr >> 9) << 8) - _curr_addr`, which underflows to
4294965120, so the first program call has length 4294965120 — far above
256 and crossing every page boundary. -/
theorem C2_flush_unaligned_chunk_violation :
    (writeFIFO misalignedState).1.trace.head? =
      some (DevOp.pageProgram 4224 4294965120) ∧
    256 < 4294965120 ∧ 256 - misalignedState.curr_addr % 256 = 128 ∧
    (4294965120 : Nat) ≠ 128 := by
  decide

/-- C3: refuted on the code.  `close()` on a Writing session returns `Ok`
but leaves the mode at Writing: lines 110/117 read
`_mode == FLASH_STORAGE_NO_MODE;`, an effect-free comparison instead of an
assignment.  Consequently a second consecutive `close()` is not a no-op:
it re-runs the Writing branch and issues further device commands (the
trace grows from 6 to 10 operations). -/
theorem C3_close_mode_never_cleared :
    (close writingState).2 = Status.ok ∧
    (close writingState).1.mode = FlashStorageMode.write_mode ∧
    (close writingState).1.mode ≠ FlashStorageMode.no_mode ∧
    (close (close writingState).1).2 = Status.ok ∧
    (close (close writingState).1).1.trace.length = 10 ∧
    (close writingState).1.trace.length = 6 := by
  decide

/-- C5: refuted on the code.  For the stored record bytes
`b2, b3, b4 = 0, 16, 1` the claimed reconstruction
`((b2<<8 | b3) << 8) + b4` yields 4097, but `readFAT` line 282
`(b2 << 8 | b3) << 8 + b4` parses as `(b2 << 8 | b3) << (8 + b4)` and
yields 8192. -/
theorem C5_decode_end_mismatch :
    fatDecodeEnd 0 16 1 = 8192 ∧
    ((0 <<< 8 ||| 16) <<< 8) + 1 = 4097 ∧ (8192 : Nat) ≠ 4097 := by
  decide

/-! ### Frame lemmas: which fields each operation leaves unchanged -/

theorem eraseAddrs_append (t1 t2 : List DevOp) :
    eraseAddrs (t1 ++ t2) = eraseAddrs t1 ++ eraseAddrs t2 :=
  List.filterMap_append _ _ _

theorem fifoChunkLoop_frame (buf : Nat → Nat) (total offset : Nat) :
    ∀ (n p : Nat) (s : State),
      (fifoChunkLoop buf total offset n p s).fat = s.fat ∧
      (fifoChunkLoop buf total offset n p s).mode = s.mode ∧
      (fifoChunkLoop buf total offset n p s).opened_file = s.opened_file ∧
      (fifoChunkLoop buf total offset n p s).buff = s.buff ∧
      (fifoChunkLoop buf total offset n p s).buff_index = s.buff_index ∧
      (fifoChunkLoop buf total offset n p s).max_erased_addr = s.max_erased_addr ∧
      (fifoChunkLoop buf total offset n p s).lookahead_erase_size =
        s.lookahead_erase_size ∧
      eraseAddrs (fifoChunkLoop buf total offset n p s).trace = eraseAddrs s.trace
  | 0, _, s => ⟨rfl, rfl, rfl, rfl, rfl, rfl, rfl, rfl⟩
  | n + 1, p, s => by
    have ih := fifoChunkLoop_frame buf total offset n (p + 1)
    simp only [fifoChunkLoop]
    refine ⟨?_, ?_, ?_, ?_, ?_, ?_, ?_, ?_⟩
    · rw [(ih _).1]; simp [pageProgramOp]
    · rw [(ih _).2.1]; simp [pageProgramOp]
    · rw [(ih _).2.2.1]; simp [pageProgramOp]
    · rw [(ih _).2.2.2.1]; simp [pageProgramOp]
    · rw [(ih _).2.2.2.2.1]; simp [pageProgramOp]
    · rw [(ih _).2.2.2.2.2.1]; simp [pageProgramOp]
    · rw [(ih _).2.2.2.2.2.2.1]; simp [pageProgramOp]
    · rw [(ih _).2.2.2.2.2.2.2]
      simp [pageProgramOp, eraseAddrs_append, eraseAddrs]

theorem fatProgLoop_frame (bytes : List Nat) (total : Nat) :
    ∀ (n p : Nat) (s : State),
      (fatProgLoop bytes total n p s).fat = s.fat ∧
      (fatProgLoop bytes total n p s).mode = s.mode ∧
      (fatProgLoop bytes total n p s).opened_file = s.opened_file ∧
      (fatProgLoop bytes total n p s).buff = s.buff ∧
      (fatProgLoop bytes total n p s).buff_index = s.buff_index ∧
      (fatProgLoop bytes total n p s).curr_addr = s.curr_addr ∧
      (fatProgLoop bytes total n p s).max_erased_addr = s.max_erased_addr ∧
      (fatProgLoop bytes total n p s).lookahead_erase_size =
        s.lookahead_erase_size ∧
      eraseAddrs (fatProgLoop bytes total n p s).trace = eraseAddrs s.trace
  | 0, _, s => ⟨rfl, rfl, rfl, rfl, rfl, rfl, rfl, rfl, rfl⟩
  | n + 1, p, s => by
    have ih := fatProgLoop_frame bytes total n (p + 1)
    simp only [fatProgLoop]
    refine ⟨?_, ?_, ?_, ?_, ?_, ?_, ?_, ?_, ?_⟩
    · rw [(ih _).1]; simp [pageProgramOp]
    · rw [(ih _).2.1]; simp [pageProgramOp]
    · rw [(ih _).2.2.1]; simp [pageProgramOp]
    · rw [(ih _).2.2.2.1]; simp [pageProgramOp]
    · rw [(ih _).2.2.2.2.1]; simp [pageProgramOp]
    · rw [(ih _).2.2.2.2.2.1]; simp [pageProgramOp]
    · rw [(ih _).2.2.2.2.2.2.1]; simp [pageProgramOp]
    · rw [(ih _).2.2.2.2.2.2.2.1]; simp [pageProgramOp]
    · rw [(ih _).2.2.2.2.2.2.2.2]
      simp [pageProgramOp, eraseAddrs_append, eraseAddrs]

theorem fatProgLoop_flash (bytes : List Nat) (total : Nat) :
    ∀ (n p : Nat) (s : State) (a : Nat), 256 ≤ a →
      (fatProgLoop bytes total n p s).flash a = s.flash a
  | 0, _, _, _, _ => rfl
  | n + 1, p, s, a, ha => by
    simp only [fatProgLoop]
    rw [fatProgLoop_flash bytes total n (p + 1) _ a ha]
    have := chunkSize_le total 0 p
    simp only [pageProgramOp]
    rw [if_neg]
    omega

/-- What `writeFAT` does: reports `Ok`, touches only flash below 4096
(sector-0 erase plus programs of at most one page at address 0), appends
exactly one sector erase (address 0) to the trace, and leaves every other
field unchanged. -/
theorem writeFAT_spec (s : State) :
    (writeFAT s).2 = Status.ok ∧
    (writeFAT s).1.fat = s.fat ∧
    (writeFAT s).1.mode = s.mode ∧
    (writeFAT s).1.opened_file = s.opened_file ∧
    (writeFAT s).1.buff = s.buff ∧
    (writeFAT s).1.buff_index = s.buff_index ∧
    (writeFAT s).1.curr_addr = s.curr_addr ∧
    (writeFAT s).1.max_erased_addr = s.max_erased_addr ∧
    (writeFAT s).1.lookahead_erase_size = s.lookahead_erase_size ∧
    (∀ a, 4096 ≤ a → (writeFAT s).1.flash a = s.flash a) ∧
    eraseAddrs (writeFAT s).1.trace = eraseAddrs s.trace ++ [0] := by
  simp only [writeFAT]
  refine ⟨by trivial, ?_, ?_, ?_, ?_, ?_, ?_, ?_, ?_, ?_, ?_⟩
  · rw [(fatProgLoop_frame _ _ _ _ _).1]; rfl
  · rw [(fatProgLoop_frame _ _ _ _ _).2.1]; rfl
  · rw [(fatProgLoop_frame _ _ _ _ _).2.2.1]; rfl
  · rw [(fatProgLoop_frame _ _ _ _ _).2.2.2.1]; rfl
  · rw [(fatProgLoop_frame _ _ _ _ _).2.2.2.2.1]; rfl
  · rw [(fatProgLoop_frame _ _ _ _ _).2.2.2.2.2.1]; rfl
  · rw [(fatProgLoop_frame _ _ _ _ _).2.2.2.2.2.2.1]; rfl
  · rw [(fatProgLoop_frame _ _ _ _ _).2.2.2.2.2.2.2.1]; rfl
  · intro a ha
    rw [fatProgLoop_flash _ _ _ _ _ a (by omega)]
    simp only [sectorEraseOp]
    rw [if_neg]
    omega
  · rw [(fatProgLoop_frame _ _ _ _ _).2.2.2.2.2.2.2.2]
    simp [sectorEraseOp, eraseAddrs_append, eraseAddrs]

/-! ### The flush loop: content of the programmed bytes -/

theorem fifoChunkLoop_succ (buf : Nat → Nat) (total offset n p : Nat) (s : State) :
    fifoChunkLoop buf total offset (n + 1) p s =
      fifoChunkLoop buf total offset n (p + 1)
        { s with
          flash := fun a =>
            if s.curr_addr ≤ a ∧ a < s.curr_addr + chunkSize total offset p
            then Nat.land (s.flash a) (buf (256 * p + offset + (a - s.curr_addr)))
            else s.flash a
          trace := s.trace ++ [DevOp.pageProgram s.curr_addr (chunkSize total offset p)]
          curr_addr := mod32 (s.curr_addr + chunkSize total offset p) } := by
  simp only [fifoChunkLoop, pageProgramOp]

theorem fifoChunkLoop_spec (buf : Nat → Nat) (B : Nat) (hB : B ≤ 1024) :
    ∀ (n p : Nat) (s : State), p + n = B / 256 + 1 →
      s.curr_addr + (B - 256 * p) < 2 ^ 32 →
      (fifoChunkLoop buf B 0 n p s).curr_addr = s.curr_addr + (B - 256 * p) ∧
      ∀ a, (fifoChunkLoop buf B 0 n p s).flash a =
        if s.curr_addr ≤ a ∧ a < s.curr_addr + (B - 256 * p)
        then Nat.land (s.flash a) (buf (256 * p + (a - s.curr_addr)))
        else s.flash a := by
  intro n
  induction n with
  | zero =>
    intro p s hp hc
    have h0 : B - 256 * p = 0 := by omega
    rw [h0]
    refine ⟨by simp [fifoChunkLoop], ?_⟩
    intro a
    simp only [fifoChunkLoop]
    rw [if_neg (by omega)]
  | succ n ih =>
    intro p s hp hc
    have hple : 256 * p ≤ B := by omega
    have hlt : B < 2 ^ 31 := by omega
    have hsz := chunkSize_eq hple hlt
    rw [fifoChunkLoop_succ]
    have hcm : mod32 (s.curr_addr + chunkSize B 0 p) =
        s.curr_addr + chunkSize B 0 p := by
      apply mod32_small
      rw [hsz]; omega
    have harith : (s.curr_addr + chunkSize B 0 p) + (B - 256 * (p + 1)) =
        s.curr_addr + (B - 256 * p) := by
      rw [hsz]; omega
    set s2 : State :=
      { s with
        flash := fun a =>
          if s.curr_addr ≤ a ∧ a < s.curr_addr + chunkSize B 0 p
          then Nat.land (s.flash a) (buf (256 * p + 0 + (a - s.curr_addr)))
          else s.flash a
        trace := s.trace ++ [DevOp.pageProgram s.curr_addr (chunkSize B 0 p)]
        curr_addr := mod32 (s.curr_addr + chunkSize B 0 p) } with hs2
    have h2curr : s2.curr_addr = s.curr_addr + chunkSize B 0 p := by
      rw [hs2]; exact hcm
    have h2flash : ∀ a, s2.flash a =
        if s.curr_addr ≤ a ∧ a < s.curr_addr + chunkSize B 0 p
        then Nat.land (s.flash a) (buf (256 * p + 0 + (a - s.curr_addr)))
        else s.flash a := fun a => by rw [hs2]
    obtain ⟨ihc, ihf⟩ := ih (p + 1) s2 (by omega) (by rw [h2curr, hsz]; omega)
    rw [h2curr, hsz] at ihc
    constructor
    · rw [ihc]
      omega
    · intro a
      rw [ihf a]
      have hcm2 : mod32 (s.curr_addr + 256 ⊓ (B - 256 * p)) =
          s.curr_addr + 256 ⊓ (B - 256 * p) := by
        apply mod32_small; omega
      simp only [h2curr, h2flash, hsz, hcm2]
      by_cases h1 : s.curr_addr ≤ a ∧ a < s.curr_addr + 256 ⊓ (B - 256 * p)
      · -- programmed by this chunk; the recursive region does not touch it
        have hnA : ¬(s.curr_addr + 256 ⊓ (B - 256 * p) ≤ a ∧
            a < s.curr_addr + 256 ⊓ (B - 256 * p) + (B - 256 * (p + 1))) := by omega
        have hC : s.curr_addr ≤ a ∧ a < s.curr_addr + (B - 256 * p) := by omega
        rw [if_pos h1, if_neg hnA, if_pos hC]
        exact congrArg (fun i => Nat.land (s.flash a) (buf i)) (by omega)
      · by_cases h2 : s.curr_addr + 256 ⊓ (B - 256 * p) ≤ a ∧
            a < s.curr_addr + 256 ⊓ (B - 256 * p) + (B - 256 * (p + 1))
        · -- programmed by a later chunk
          have hC : s.curr_addr ≤ a ∧ a < s.curr_addr + (B - 256 * p) := by omega
          rw [if_neg h1, if_pos h2, if_pos hC]
          exact congrArg (fun i => Nat.land (s.flash a) (buf i)) (by omega)
        · -- untouched
          have hnC : ¬(s.curr_addr ≤ a ∧ a < s.curr_addr + (B - 256 * p)) := by
            omega
          rw [if_neg h1, if_neg h2, if_neg hnC]

theorem sub32_zero (a : Nat) : sub32 a 0 = a % 2 ^ 32 := by
  unfold sub32
  omega

/-- `writeFIFO` on a page-aligned cursor when the buffer stays below the
erased frontier: no erase is issued, the whole buffer is programmed at the
cursor, the cursor advances by `_buff_index` and the buffer empties. -/
theorem writeFIFO_spec_noerase (s : State) (ha : s.curr_addr % 256 = 0)
    (hb : s.buff_index ≤ 1024)
    (hNE : s.curr_addr + s.buff_index < s.max_erased_addr)
    (hc32 : s.curr_addr + s.buff_index < 2 ^ 32) :
    (writeFIFO s).2 = Status.ok ∧
    (writeFIFO s).1.curr_addr = s.curr_addr + s.buff_index ∧
    (writeFIFO s).1.buff_index = 0 ∧
    (writeFIFO s).1.max_erased_addr = s.max_erased_addr ∧
    (writeFIFO s).1.fat = s.fat ∧
    (writeFIFO s).1.mode = s.mode ∧
    (writeFIFO s).1.opened_file = s.opened_file ∧
    (writeFIFO s).1.buff = s.buff ∧
    (writeFIFO s).1.lookahead_erase_size = s.lookahead_erase_size ∧
    (∀ a, (writeFIFO s).1.flash a =
      if s.curr_addr ≤ a ∧ a < s.curr_addr + s.buff_index
      then Nat.land (s.flash a) (s.buff (a - s.curr_addr))
      else s.flash a) ∧
    eraseAddrs (writeFIFO s).1.trace = eraseAddrs s.trace := by
  have hmc : mod32 (s.curr_addr + s.buff_index) = s.curr_addr + s.buff_index :=
    mod32_small hc32
  have hnotE : ¬ (mod32 (s.curr_addr + s.buff_index) ≥ s.max_erased_addr) := by
    rw [hmc]; omega
  have hnotAl : ¬ (s.curr_addr % 256 ≠ 0) := by omega
  have hiters : sub32 s.buff_index 0 / 256 + 1 = s.buff_index / 256 + 1 := by
    rw [sub32_zero, Nat.mod_eq_of_lt (by omega)]
  simp only [writeFIFO, if_neg hnotE, if_neg hnotAl, hiters]
  obtain ⟨hlc, hlf⟩ := fifoChunkLoop_spec s.buff s.buff_index hb
    (s.buff_index / 256 + 1) 0 s (by omega) (by omega)
  have hfr := fifoChunkLoop_frame s.buff s.buff_index 0 (s.buff_index / 256 + 1) 0 s
  refine ⟨by trivial, ?_, by trivial, ?_, ?_, ?_, ?_, ?_, ?_, ?_, ?_⟩
  · rw [hlc]; omega
  · exact hfr.2.2.2.2.2.1
  · exact hfr.1
  · exact hfr.2.1
  · exact hfr.2.2.1
  · exact hfr.2.2.2.1
  · exact hfr.2.2.2.2.2.2.1
  · intro a
    rw [hlf a]
    simp only [Nat.sub_zero, Nat.mul_zero, Nat.zero_mul, Nat.zero_add]
  · exact hfr.2.2.2.2.2.2.2

/-- `writeFIFO` on a page-aligned cursor when the buffer would reach the
erased frontier: the frontier sector is erased first and the frontier
advances by 4096, then the buffer is programmed as usual. -/
theorem writeFIFO_spec_erase (s : State) (ha : s.curr_addr % 256 = 0)
    (hb : s.buff_index ≤ 1024)
    (hE : s.max_erased_addr ≤ s.curr_addr + s.buff_index)
    (hM : s.max_erased_addr % 4096 = 0)
    (hc32 : s.curr_addr + s.buff_index < 2 ^ 32)
    (hm32 : s.max_erased_addr + 4096 < 2 ^ 32) :
    (writeFIFO s).2 = Status.ok ∧
    (writeFIFO s).1.curr_addr = s.curr_addr + s.buff_index ∧
    (writeFIFO s).1.buff_index = 0 ∧
    (writeFIFO s).1.max_erased_addr = s.max_erased_addr + 4096 ∧
    (writeFIFO s).1.fat = s.fat ∧
    (writeFIFO s).1.mode = s.mode ∧
    (writeFIFO s).1.opened_file = s.opened_file ∧
    (writeFIFO s).1.buff = s.buff ∧
    (writeFIFO s).1.lookahead_erase_size = s.lookahead_erase_size ∧
    (∀ a, (writeFIFO s).1.flash a =
      if s.curr_addr ≤ a ∧ a < s.curr_addr + s.buff_index
      then Nat.land
        (if s.max_erased_addr ≤ a ∧ a < s.max_erased_addr + 4096
         then 255 else s.flash a)
        (s.buff (a - s.curr_addr))
      else
        if s.max_erased_addr ≤ a ∧ a < s.max_erased_addr + 4096
        then 255 else s.flash a) ∧
    eraseAddrs (writeFIFO s).1.trace = eraseAddrs s.trace ++ [s.max_erased_addr] := by
  have hmc : mod32 (s.curr_addr + s.buff_index) = s.curr_addr + s.buff_index :=
    mod32_small hc32
  have hyesE : mod32 (s.curr_addr + s.buff_index) ≥ s.max_erased_addr := by
    rw [hmc]; omega
  have hnotAl : ¬ (s.curr_addr % 256 ≠ 0) := by omega
  have hiters : sub32 s.buff_index 0 / 256 + 1 = s.buff_index / 256 + 1 := by
    rw [sub32_zero, Nat.mod_eq_of_lt (by omega)]
  simp only [writeFIFO, if_pos hyesE, if_neg hnotAl, hiters, sectorEraseOp]
  set s1 : State :=
    { s with
      flash := fun a => if a / 4096 = s.max_erased_addr / 4096 then 255 else s.flash a
      trace := s.trace ++ [DevOp.sectorErase s.max_erased_addr]
      max_erased_addr := mod32 (s.max_erased_addr + 4096) } with hs1
  have h1c : s1.curr_addr = s.curr_addr := rfl
  have h1b : s1.buff_index = s.buff_index := rfl
  have h1f : ∀ a, s1.flash a =
      if s.max_erased_addr ≤ a ∧ a < s.max_erased_addr + 4096
      then 255 else s.flash a := by
    intro a
    show (if a / 4096 = s.max_erased_addr / 4096 then 255 else s.flash a) = _
    by_cases h : s.max_erased_addr ≤ a ∧ a < s.max_erased_addr + 4096
    · rw [if_pos h, if_pos (by omega)]
    · rw [if_neg h, if_neg (by omega)]
  obtain ⟨hlc, hlf⟩ := fifoChunkLoop_spec s1.buff s1.buff_index
    (by rw [hs1]; exact hb) (s1.buff_index / 256 + 1) 0 s1 (by omega)
    (by rw [h1c, h1b]; omega)
  have hfr := fifoChunkLoop_frame s1.buff s1.buff_index 0
    (s1.buff_index / 256 + 1) 0 s1
  have hiters1 : s1.buff_index / 256 + 1 = s.buff_index / 256 + 1 := by rw [h1b]
  rw [hiters1] at hlc hlf hfr
  have hbeq : s1.buff = s.buff := by rw [hs1]
  rw [hbeq] at hlc hlf hfr
  have hbieq : (s.buff_index : Nat) = s1.buff_index := by rw [h1b]
  refine ⟨by trivial, ?_, by trivial, ?_, ?_, ?_, ?_, ?_, ?_, ?_, ?_⟩
  · rw [hbieq, hlc, h1c, h1b]; omega
  · rw [hbieq, hfr.2.2.2.2.2.1, hs1]
    exact mod32_small hm32
  · rw [hbieq, hfr.1, hs1]
  · rw [hbieq, hfr.2.1, hs1]
  · rw [hbieq, hfr.2.2.1, hs1]
  · rw [hbieq, hfr.2.2.2.1]
  · rw [hbieq, hfr.2.2.2.2.2.2.1]
  · intro a
    rw [hbieq, hlf a, h1c, h1b]
    simp only [Nat.sub_zero, Nat.mul_zero, Nat.zero_mul, Nat.zero_add, h1f a]
    have hiff : (a / 4096 = s.max_erased_addr / 4096) ↔
        (s.max_erased_addr ≤ a ∧ a < s.max_erased_addr + 4096) := by omega
    simp only [hiff]
  · rw [hbieq, hfr.2.2.2.2.2.2.2, hs1]
    simp [eraseAddrs_append, eraseAddrs]

theorem writeFIFO_buffIndex (s : State) : (writeFIFO s).1.buff_index = 0 := rfl

/-- `writeFIFO` never touches the FAT, the mode, the open-file index, the
buffer contents or the look-ahead size, in any of its branches. -/
theorem writeFIFO_frame_all (s : State) :
    (writeFIFO s).1.fat = s.fat ∧
    (writeFIFO s).1.mode = s.mode ∧
    (writeFIFO s).1.opened_file = s.opened_file ∧
    (writeFIFO s).1.buff = s.buff ∧
    (writeFIFO s).1.lookahead_erase_size = s.lookahead_erase_size := by
  simp only [writeFIFO]
  split_ifs <;>
    refine ⟨?_, ?_, ?_, ?_, ?_⟩ <;>
    first
      | (rw [(fifoChunkLoop_frame _ _ _ _ _ _).1]
         try simp [pageProgramOp, sectorEraseOp])
      | (rw [(fifoChunkLoop_frame _ _ _ _ _ _).2.1]
         try simp [pageProgramOp, sectorEraseOp])
      | (rw [(fifoChunkLoop_frame _ _ _ _ _ _).2.2.1]
         try simp [pageProgramOp, sectorEraseOp])
      | (rw [(fifoChunkLoop_frame _ _ _ _ _ _).2.2.2.1]
         try simp [pageProgramOp, sectorEraseOp])
      | (rw [(fifoChunkLoop_frame _ _ _ _ _ _).2.2.2.2.2.2.1]
         try simp [pageProgramOp, sectorEraseOp])

theorem eraseNextSector_frame (s : State) (b : Bool) :
    (eraseNextSector s b).1.buff_index = s.buff_index ∧
    (eraseNextSector s b).1.buff = s.buff ∧
    (eraseNextSector s b).1.curr_addr = s.curr_addr ∧
    (eraseNextSector s b).1.fat = s.fat ∧
    (eraseNextSector s b).1.mode = s.mode ∧
    (eraseNextSector s b).1.opened_file = s.opened_file ∧
    (eraseNextSector s b).1.lookahead_erase_size = s.lookahead_erase_size := by
  unfold eraseNextSector
  split <;> exact ⟨rfl, rfl, rfl, rfl, rfl, rfl, rfl⟩

/-- Postcondition of the refill loop in `write`: the final index stays in
`[i, length]`, the remainder is at most one buffer, and an empty buffer at
entry stays empty at exit. -/
theorem writeLoop_post (data : List Nat) (s : State) (i : Nat)
    (hi : i ≤ data.length) :
    i ≤ (writeLoop s data i).2 ∧ (writeLoop s data i).2 ≤ data.length ∧
    data.length ≤ (writeLoop s data i).2 + 1024 ∧
    (s.buff_index = 0 → (writeLoop s data i).1.buff_index = 0) := by
  rw [writeLoop]
  split
  next h =>
    have ih := writeLoop_post data
      ((writeFIFO { memcpyBuff s 0 data i 1024 with buff_index := 1024 }).1)
      (i + 1024) (by omega)
    dsimp only at ih ⊢
    obtain ⟨ih1, ih2, ih3, ih4⟩ := ih
    exact ⟨by omega, ih2, ih3, fun _ => ih4 (writeFIFO_buffIndex _)⟩
  next h =>
    exact ⟨le_refl _, hi, by omega, fun h0 => h0⟩
termination_by data.length - i
decreasing_by simp_wf; omega

theorem close_count (s : State) : (close s).1.fat.file_count = s.fat.file_count := by
  unfold close
  split
  · rfl
  · dsimp only
    rw [(writeFAT_spec _).2.1]
    dsimp only
    rw [(writeFIFO_frame_all _).1]
  · rfl

theorem sub32_zero_one : sub32 0 1 = 2 ^ 32 - 1 := by
  unfold sub32
  norm_num

theorem memcpyBuff_buffIndex (s : State) (d : Nat) (src : List Nat) (o l : Nat) :
    (memcpyBuff s d src o l).buff_index = s.buff_index := rfl

/-- `write` keeps the buffer fill index within the 1024-byte capacity. -/
theorem write_buffIndex (s : State) (data : List Nat) (bz : Bool)
    (h : s.buff_index ≤ 1024) :
    (write s data bz).1.buff_index ≤ 1024 := by
  have hrem : sub32 1024 s.buff_index = 1024 - s.buff_index :=
    sub32_small h (by norm_num)
  unfold write
  split
  · exact h
  · dsimp only
    split
    next hgt =>
      -- straight copy into the buffer
      have hb2 : mod32 (s.buff_index + data.length) ≤ 1024 := by
        rw [hrem] at hgt
        unfold mod32
        omega
      split
      · rw [(eraseNextSector_frame _ _).1]
        exact hb2
      · exact hb2
    next hgt =>
      -- fill, flush, loop, buffer the remainder
      have ih := writeLoop_post data
        ((writeFIFO
          { memcpyBuff s s.buff_index data 0 (sub32 1024 s.buff_index) with
            buff_index := mod32 ((memcpyBuff s s.buff_index data 0 (sub32 1024 s.buff_index)).buff_index + sub32 1024 s.buff_index) }).1)
        (sub32 1024 s.buff_index) (by omega)
      split
      · rw [(eraseNextSector_frame _ _).1]
        dsimp only at ih ⊢
        obtain ⟨p1, p2, p3, p4⟩ := ih
        rw [memcpyBuff_buffIndex, p4 (writeFIFO_buffIndex _), Nat.zero_add]
        rw [sub32_sub p2 (by omega)]
        exact le_trans (Nat.mod_le _ _) (by omega)
      · dsimp only at ih ⊢
        obtain ⟨p1, p2, p3, p4⟩ := ih
        rw [memcpyBuff_buffIndex, p4 (writeFIFO_buffIndex _), Nat.zero_add]
        rw [sub32_sub p2 (by omega)]
        exact le_trans (Nat.mod_le _ _) (by omega)

/-- `close()` on a Writing session with an empty buffer and a page-aligned
cursor below the erased frontier: the record's end address is finalised to
the cursor, the session indices are cleared — but the mode stays Writing
(the ineffective `==` at line 110). -/
theorem close_clean_write (s : State) (hm : s.mode = FlashStorageMode.write_mode)
    (hb : s.buff_index = 0) (ha : s.curr_addr % 256 = 0)
    (hlt : s.curr_addr < s.max_erased_addr) (h32 : s.max_erased_addr < 2 ^ 32) :
    (close s).2 = Status.ok ∧
    (close s).1.mode = FlashStorageMode.write_mode ∧
    (close s).1.buff_index = 0 ∧
    (close s).1.opened_file = 0 ∧
    (close s).1.curr_addr = 0 ∧
    (close s).1.max_erased_addr = 0 ∧
    (close s).1.lookahead_erase_size = s.lookahead_erase_size ∧
    (close s).1.fat.file_count = s.fat.file_count ∧
    (∀ i, (close s).1.fat.files i =
      if i = sub32 s.opened_file 1
      then { s.fat.files (sub32 s.opened_file 1) with end_addr := s.curr_addr }
      else s.fat.files i) := by
  obtain ⟨w1, w2, w3, w4, w5, w6, w7, w8, w9, w10, w11⟩ :=
    writeFIFO_spec_noerase s ha (by omega) (by omega) (by omega)
  unfold close
  rw [hm]
  dsimp only
  refine ⟨rfl, ?_, ?_, ?_, rfl, rfl, ?_, ?_, ?_⟩
  · rw [(writeFAT_spec _).2.2.1]
    dsimp only
    rw [w6, hm]
  · rw [(writeFAT_spec _).2.2.2.2.2.1]
    dsimp only
    rw [writeFIFO_buffIndex]
  · rw [(writeFAT_spec _).2.2.2.1]
  · rw [(writeFAT_spec _).2.2.2.2.2.2.2.2.1]
    dsimp only
    rw [w9]
  · rw [(writeFAT_spec _).2.1]
    dsimp only
    rw [w5]
  · intro i
    rw [(writeFAT_spec _).2.1]
    dsimp only
    rw [w5, w7, w2, hb, Nat.add_zero]
    by_cases hi : i = sub32 s.opened_file 1
    · rw [if_pos hi, if_pos hi, hi]
    · rw [if_neg hi, if_neg hi]

/-- C9: `openFile(0)` is accepted: the 1-based index check `0 > file_count`
never fires, so the call returns `Ok`, enters Reading mode with
`_opened_file = 0`, and the record slot the session consults,
`_opened_file - 1 = 2^32 - 1` in unsigned arithmetic, lies outside the
table; `peek` then reads that out-of-range record. -/
theorem C9_openFile_zero_accepted (s : State) (h : s.fat.file_count ≤ 32) :
    (openFile s 0).2 = Status.ok ∧
    (openFile s 0).1.mode = FlashStorageMode.read_mode ∧
    (openFile s 0).1.opened_file = 0 ∧
    (openFile s 0).1.fat.file_count < sub32 ((openFile s 0).1.opened_file) 1 ∧
    peek (openFile s 0).1 =
      sub32 (((openFile s 0).1.fat.files (sub32 0 1)).end_addr)
        ((openFile s 0).1.curr_addr) := by
  unfold openFile
  rw [if_neg (by omega : ¬ ((0 : Nat) > (close s).1.fat.file_count))]
  dsimp only
  refine ⟨rfl, rfl, rfl, ?_, ?_⟩
  · rw [close_count, sub32_zero_one]
    omega
  · unfold peek
    dsimp only
    rw [if_neg (by simp)]

/-- C9 witness at a concrete table state. -/
theorem C9_witness :
    writingState.fat.file_count ≤ 32 ∧
    (openFile writingState 0).2 = Status.ok ∧
    (openFile writingState 0).1.mode = FlashStorageMode.read_mode ∧
    (openFile writingState 0).1.opened_file = 0 ∧
    (openFile writingState 0).1.fat.file_count <
      sub32 ((openFile writingState 0).1.opened_file) 1 ∧
    peek (openFile writingState 0).1 =
      sub32 (((openFile writingState 0).1.fat.files (sub32 0 1)).end_addr)
        ((openFile writingState 0).1.curr_addr) := by
  refine ⟨by decide, ?_⟩
  exact C9_openFile_zero_accepted writingState (by decide)

/-- C10: if the buffer fill index is within the 1024-byte capacity before a
`write` call then it still is afterwards (the lower bound 0 is inherent to
`Nat`), and every `writeFIFO` flush resets the fill index to exactly 0. -/
theorem C10_buffer_never_overflows (s : State) (data : List Nat) (bz : Bool)
    (h : s.buff_index ≤ 1024) :
    (write s data bz).1.buff_index ≤ 1024 ∧ (writeFIFO s).1.buff_index = 0 :=
  ⟨write_buffIndex s data bz h, writeFIFO_buffIndex s⟩

/-- C10 witness at a concrete writing state and write call. -/
theorem C10_witness :
    writingState.buff_index ≤ 1024 ∧
    (write writingState [1, 2, 3] false).1.buff_index ≤ 1024 ∧
    (writeFIFO writingState).1.buff_index = 0 := by
  refine ⟨by decide, ?_⟩
  exact C10_buffer_never_overflows writingState [1, 2, 3] false (by decide)

/-- C8: in Reading mode (with a sane session, cursor at most the record's
end address), `read` clamps: a request longer than `peek()` returns exactly
`peek()` bytes and advances the cursor exactly to `end_addr`; a device
error returns 0 bytes and leaves the cursor unchanged; a successful read
advances the cursor by the returned count and delivers that many bytes. -/
theorem C8_read_clamps_at_end (s : State) (st : W25Q64Status) (len : Nat)
    (hm : s.mode = FlashStorageMode.read_mode)
    (hle : s.curr_addr ≤ (s.fat.files (sub32 s.opened_file 1)).end_addr)
    (hlt : (s.fat.files (sub32 s.opened_file 1)).end_addr < 2 ^ 32) :
    (st ≠ W25Q64Status.ok → read s st len = (s, 0, [])) ∧
    (st = W25Q64Status.ok →
      (read s st len).2.1 =
        min len ((s.fat.files (sub32 s.opened_file 1)).end_addr - s.curr_addr) ∧
      (read s st len).1.curr_addr = s.curr_addr + (read s st len).2.1 ∧
      (read s st len).2.2.length = (read s st len).2.1) ∧
    (st = W25Q64Status.ok → peek s < len →
      (read s st len).2.1 = peek s ∧
      (read s st len).1.curr_addr =
        (s.fat.files (sub32 s.opened_file 1)).end_addr) := by
  have hnm : ¬ (s.mode ≠ FlashStorageMode.read_mode) := by rw [hm]; simp
  have hs : sub32 ((s.fat.files (sub32 s.opened_file 1)).end_addr) s.curr_addr
      = (s.fat.files (sub32 s.opened_file 1)).end_addr - s.curr_addr :=
    sub32_small hle hlt
  have hpeek : peek s
      = (s.fat.files (sub32 s.opened_file 1)).end_addr - s.curr_addr := by
    unfold peek
    rw [if_neg hnm, hs]
  unfold read
  rw [if_neg hnm]
  dsimp only
  rw [hs]
  refine ⟨?_, ?_, ?_⟩
  · intro hst
    rw [if_pos hst]
  · intro hst
    subst hst
    rw [if_neg (show ¬ (W25Q64Status.ok ≠ W25Q64Status.ok) by simp)]
    by_cases hlen :
        len > (s.fat.files (sub32 s.opened_file 1)).end_addr - s.curr_addr
    · rw [if_pos hlen]
      dsimp only
      refine ⟨by omega, ?_, by simp [fastReadOp]⟩
      rw [mod32_small (by omega)]
    · rw [if_neg hlen]
      dsimp only
      refine ⟨by omega, ?_, by simp [fastReadOp]⟩
      rw [mod32_small (by omega)]
  · intro hst hplen
    subst hst
    rw [hpeek] at hplen
    rw [if_neg (show ¬ (W25Q64Status.ok ≠ W25Q64Status.ok) by simp)]
    rw [if_pos hplen]
    dsimp only
    rw [hpeek]
    refine ⟨rfl, ?_⟩
    rw [mod32_small (by omega)]
    omega

/-- A concrete Reading-mode session for the C8 witness: file 1 spans
addresses `[0, 10)` and the cursor is at 0. -/
def readingState : State :=
  { cleanState with
    mode := FlashStorageMode.read_mode
    opened_file := 1
    curr_addr := 0
    fat := { files := fun i => if i = 0 then ⟨0, 10⟩ else ⟨0, 0⟩, file_count := 1 } }

/-- C8 witness: reading 99 bytes from the 10-byte file. -/
theorem C8_witness :
    readingState.mode = FlashStorageMode.read_mode ∧
    readingState.curr_addr ≤
      (readingState.fat.files (sub32 readingState.opened_file 1)).end_addr ∧
    (readingState.fat.files (sub32 readingState.opened_file 1)).end_addr < 2 ^ 32 ∧
    (W25Q64Status.ok = W25Q64Status.ok → peek readingState < 99 →
      (read readingState W25Q64Status.ok 99).2.1 = peek readingState ∧
      (read readingState W25Q64Status.ok 99).1.curr_addr =
        (readingState.fat.files (sub32 readingState.opened_file 1)).end_addr) := by
  refine ⟨by decide, by decide, by decide, ?_⟩
  exact (C8_read_clamps_at_end readingState W25Q64Status.ok 99 (by decide)
    (by decide) (by decide)).2.2

/-- The start address `newFile` computes for the next file
(src/FlashStorage.cpp lines 48-51): sector 1 for the first file, otherwise
the sector following the previous file's end address. -/
def newFileStart (t : State) : Nat :=
  if t.fat.file_count ≠ 0
  then ((t.fat.files (t.fat.file_count - 1)).end_addr / 4096 + 1) * 4096
  else 4096

theorem newFileStart_align (t : State) : newFileStart t % 4096 = 0 := by
  unfold newFileStart
  split <;> omega

theorem newFileStart_pos (t : State) : 4096 ≤ newFileStart t := by
  unfold newFileStart
  split <;> omega

theorem sectorEraseOp_frame (s : State) (addr : Nat) :
    (sectorEraseOp s addr).buff_index = s.buff_index ∧
    (sectorEraseOp s addr).buff = s.buff ∧
    (sectorEraseOp s addr).fat = s.fat ∧
    (sectorEraseOp s addr).mode = s.mode ∧
    (sectorEraseOp s addr).opened_file = s.opened_file ∧
    (sectorEraseOp s addr).curr_addr = s.curr_addr ∧
    (sectorEraseOp s addr).max_erased_addr = s.max_erased_addr ∧
    (sectorEraseOp s addr).lookahead_erase_size = s.lookahead_erase_size :=
  ⟨rfl, rfl, rfl, rfl, rfl, rfl, rfl, rfl⟩

/-- What `newFile` does after its internal `close`, on the closed state
`t`, when there is room in the table: appends the record
`⟨newFileStart t, newFileStart t⟩`, opens it for writing, erases its first
sector and persists the table. -/
theorem newFile_body_spec (s t : State) (ht : (close s).1 = t)
    (hcnt : t.fat.file_count + 1 < 32)
    (hbound : t.fat.file_count ≠ 0 →
      (t.fat.files (t.fat.file_count - 1)).end_addr + 8192 < 2 ^ 32) :
    (newFile s).2 = Status.ok ∧
    (newFile s).1.fat.file_count = t.fat.file_count + 1 ∧
    (newFile s).1.opened_file = t.fat.file_count + 1 ∧
    (newFile s).1.mode = FlashStorageMode.write_mode ∧
    (newFile s).1.buff_index = t.buff_index ∧
    (newFile s).1.buff = t.buff ∧
    (newFile s).1.lookahead_erase_size = t.lookahead_erase_size ∧
    (newFile s).1.curr_addr = newFileStart t ∧
    (newFile s).1.max_erased_addr = newFileStart t + 4096 ∧
    (newFile s).1.fat.files t.fat.file_count =
      ⟨newFileStart t, newFileStart t⟩ ∧
    (∀ i, i ≠ t.fat.file_count → (newFile s).1.fat.files i = t.fat.files i) ∧
    (∀ a, newFileStart t ≤ a → a < newFileStart t + 4096 →
      (newFile s).1.flash a = 255) ∧
    (∀ a, 4096 ≤ a → (a < newFileStart t ∨ newFileStart t + 4096 ≤ a) →
      (newFile s).1.flash a = t.flash a) ∧
    eraseAddrs (newFile s).1.trace = eraseAddrs t.trace ++ [newFileStart t, 0] := by
  have hstb : newFileStart t + 4096 < 2 ^ 32 := by
    unfold newFileStart
    split
    next hne =>
      have := hbound hne
      have hd : (t.fat.files (t.fat.file_count - 1)).end_addr / 4096 * 4096 ≤
          (t.fat.files (t.fat.file_count - 1)).end_addr := Nat.div_mul_le_self _ _
      omega
    next hne => omega
  have hstart : (if t.fat.file_count ≠ 0 then
      mod32 ((((t.fat.files (t.fat.file_count - 1)).end_addr >>> 12) + 1) <<< 12)
      else 4096) = newFileStart t := by
    unfold newFileStart
    unfold newFileStart at hstb
    split
    next hne =>
      rw [Nat.shiftLeft_eq, Nat.shiftRight_eq_div_pow]
      rw [if_pos hne] at hstb
      norm_num at hstb ⊢
      exact mod32_small (by omega)
    next hne => rfl
  have hcm : mod32 (t.fat.file_count + 1) = t.fat.file_count + 1 :=
    mod32_small (by omega)
  have hsub : sub32 (t.fat.file_count + 1) 1 = t.fat.file_count :=
    sub32_small (by omega) (by omega)
  have halign := newFileStart_align t
  have hpos := newFileStart_pos t
  unfold newFile
  rw [ht]
  dsimp only
  rw [hcm, hstart]
  rw [if_pos (by omega : t.fat.file_count + 1 < 32)]
  try dsimp only
  rw [hsub]
  obtain ⟨f1, f2, f3, f4, f5, f6, f7, f8, f9, f10, f11⟩ := writeFAT_spec
    ({ sectorEraseOp
        { t with
          fat := { files := fun i => if i = t.fat.file_count
                     then { start_addr := newFileStart t, end_addr := newFileStart t }
                     else t.fat.files i
                   file_count := t.fat.file_count + 1 }
          opened_file := t.fat.file_count + 1
          mode := FlashStorageMode.write_mode } (newFileStart t) with
      curr_addr := newFileStart t
      max_erased_addr := mod32 (newFileStart t + 4096) })
  refine ⟨f1, ?_, ?_, ?_, ?_, ?_, ?_, ?_, ?_, ?_, ?_, ?_, ?_, ?_⟩
  · rw [f2]
    dsimp only
    rw [(sectorEraseOp_frame _ _).2.2.1]
  · rw [f4]
    dsimp only
    rw [(sectorEraseOp_frame _ _).2.2.2.2.1]
  · rw [f3]
    dsimp only
    rw [(sectorEraseOp_frame _ _).2.2.2.1]
  · rw [f6]
    dsimp only
    rw [(sectorEraseOp_frame _ _).1]
  · rw [f5]
    dsimp only
    rw [(sectorEraseOp_frame _ _).2.1]
  · rw [f9]
    dsimp only
    rw [(sectorEraseOp_frame _ _).2.2.2.2.2.2.2]
  · rw [f7]
  · rw [f8]
    dsimp only
    exact mod32_small hstb
  · rw [f2]
    dsimp only
    rw [(sectorEraseOp_frame _ _).2.2.1]
    dsimp only
    rw [if_pos rfl]
  · intro i hi
    rw [f2]
    dsimp only
    rw [(sectorEraseOp_frame _ _).2.2.1]
    dsimp only
    rw [if_neg hi]
  · intro a h1 h2
    rw [f10 a (by omega)]
    dsimp only [sectorEraseOp]
    rw [if_pos (by omega)]
  · intro a h1 h2
    rw [f10 a h1]
    dsimp only [sectorEraseOp]
    rw [if_neg (by omega)]
  · rw [f11]
    dsimp only [sectorEraseOp]
    rw [eraseAddrs_append]
    simp [eraseAddrs]

/-- `n` successive `createFile` (`newFile`) calls. -/
def iterNewFile (s : State) : Nat → State
  | 0 => s
  | n + 1 => (newFile (iterNewFile s n)).1

/-- Invariant of a pure `createFile` sequence from a fresh store: after `n`
calls the table holds files `⟨4096(i+1), 4096(i+1)⟩`, the `n`-th file is
open for writing at its start sector, and every call so far returned
`Ok`. -/
theorem iterNewFile_inv (s0 : State) (h0 : s0.mode = FlashStorageMode.no_mode)
    (h1 : s0.buff_index = 0) (h2 : s0.fat.file_count = 0) :
    ∀ n, n ≤ 31 →
      (iterNewFile s0 n).fat.file_count = n ∧
      (iterNewFile s0 n).buff_index = 0 ∧
      (0 < n → (iterNewFile s0 n).opened_file = n ∧
        (iterNewFile s0 n).mode = FlashStorageMode.write_mode ∧
        (iterNewFile s0 n).curr_addr = 4096 * n ∧
        (iterNewFile s0 n).max_erased_addr = 4096 * n + 4096) ∧
      (∀ i, i < n → (iterNewFile s0 n).fat.files i =
        ⟨4096 * (i + 1), 4096 * (i + 1)⟩) ∧
      (∀ k, k < n → (newFile (iterNewFile s0 k)).2 = Status.ok) := by
  intro n
  induction n with
  | zero =>
    intro _
    exact ⟨h2, h1, fun h => absurd h (by omega), fun i hi => absurd hi (by omega),
      fun k hk => absurd hk (by omega)⟩
  | succ n ih =>
    intro hn
    obtain ⟨i1, i2, i3, i4, i5⟩ := ih (by omega)
    -- the state before the (n+1)-st call
    rcases Nat.eq_zero_or_pos n with hz | hpos
    · -- first call: the internal close is a no-op
      subst hz
      have ht : (close (iterNewFile s0 0)).1 = iterNewFile s0 0 := by
        show (close s0).1 = s0
        unfold close
        rw [h0]
      obtain ⟨b1, b2, b3, b4, b5, b6, b7, b8, b9, b10, b11, b12, b13, b14⟩ :=
        newFile_body_spec (iterNewFile s0 0) (iterNewFile s0 0) ht
          (by rw [i1]; omega) (by rw [i1]; omega)
      have hns : newFileStart (iterNewFile s0 0) = 4096 := by
        unfold newFileStart
        rw [if_neg (by rw [i1]; omega)]
      rw [hns] at b8 b9 b10
      refine ⟨by rw [show iterNewFile s0 1 = (newFile (iterNewFile s0 0)).1 from rfl, b2, i1],
        ?_, ?_, ?_, ?_⟩
      · show (newFile (iterNewFile s0 0)).1.buff_index = 0
        rw [b5, i2]
      · intro _
        refine ⟨?_, b4, ?_, ?_⟩
        · show (newFile (iterNewFile s0 0)).1.opened_file = 1
          rw [b3, i1]
        · show (newFile (iterNewFile s0 0)).1.curr_addr = 4096 * 1
          rw [b8]
        · show (newFile (iterNewFile s0 0)).1.max_erased_addr = 4096 * 1 + 4096
          rw [b9]
      · intro i hi
        have hi0 : i = 0 := by omega
        subst hi0
        show (newFile (iterNewFile s0 0)).1.fat.files 0 = _
        rw [i1] at b10
        rw [b10]
      · intro k hk
        have hk0 : k = 0 := by omega
        subst hk0
        exact b1
    · -- later calls: the internal close finalises the open file in place
      obtain ⟨o1, o2, o3, o4⟩ := i3 hpos
      obtain ⟨c1, c2, c3, c4, c5, c6, c7, c8, c9⟩ :=
        close_clean_write (iterNewFile s0 n) o2 i2 (by rw [o3]; omega)
          (by rw [o3, o4]; omega) (by rw [o4]; omega)
      have hsubn : sub32 (iterNewFile s0 n).opened_file 1 = n - 1 := by
        rw [o1]
        exact sub32_small (by omega) (by omega)
      -- the closed state's table
      have tcount : (close (iterNewFile s0 n)).1.fat.file_count = n := by
        rw [c8, i1]
      have tfiles : ∀ i, i < n →
          (close (iterNewFile s0 n)).1.fat.files i =
            ⟨4096 * (i + 1), 4096 * (i + 1)⟩ := by
        intro i hi
        rw [c9 i, hsubn]
        by_cases hieq : i = n - 1
        · rw [if_pos hieq]
          dsimp only
          rw [i4 (n - 1) (by omega), o3]
          subst hieq
          dsimp only
          rw [show 4096 * n = 4096 * (n - 1 + 1) from by omega]
        · rw [if_neg hieq]
          exact i4 i hi
      obtain ⟨b1, b2, b3, b4, b5, b6, b7, b8, b9, b10, b11, b12, b13, b14⟩ :=
        newFile_body_spec (iterNewFile s0 n) ((close (iterNewFile s0 n)).1) rfl
          (by rw [tcount]; omega)
          (by
            intro _
            rw [tcount, tfiles (n-1) (by omega)]
            dsimp only
            omega)
      have hns : newFileStart ((close (iterNewFile s0 n)).1) = 4096 * (n + 1) := by
        unfold newFileStart
        rw [if_pos (by rw [tcount]; omega), tcount, tfiles (n-1) (by omega)]
        dsimp only
        have : 4096 * (n - 1 + 1) / 4096 = n - 1 + 1 := by omega
        rw [this]
        omega
      rw [hns] at b8 b9 b10
      rw [tcount] at b2 b3 b10 b11
      refine ⟨?_, ?_, ?_, ?_, ?_⟩
      · show (newFile (iterNewFile s0 n)).1.fat.file_count = n + 1
        rw [b2]
      · show (newFile (iterNewFile s0 n)).1.buff_index = 0
        rw [b5, c3]
      · intro _
        refine ⟨?_, b4, ?_, ?_⟩
        · show (newFile (iterNewFile s0 n)).1.opened_file = n + 1
          rw [b3]
        · show (newFile (iterNewFile s0 n)).1.curr_addr = 4096 * (n + 1)
          rw [b8]
        · show (newFile (iterNewFile s0 n)).1.max_erased_addr = 4096 * (n + 1) + 4096
          rw [b9]
      · intro i hi
        show (newFile (iterNewFile s0 n)).1.fat.files i = _
        by_cases hieq : i = n
        · subst hieq
          rw [b10]
        · rw [b11 i hieq, tfiles i (by omega)]
      · intro k hk
        by_cases hkn : k = n
        · subst hkn
          exact b1
        · exact i5 k (by omega)

/-- C7: along any sequence of up to 31 `createFile` calls from a fresh
store, every call succeeds, the first file starts at address 4096, every
start address is sector-aligned and is the previous file's end address
rounded up to the strictly next 4096-byte boundary (hence strictly above
that end address); and the next call fails with `NoSpace` exactly when
`file_count + 1 ≥ 32` (`MAX_FILES`). -/
theorem C7_sequential_allocation (s0 : State)
    (h0 : s0.mode = FlashStorageMode.no_mode) (h1 : s0.buff_index = 0)
    (h2 : s0.fat.file_count = 0) (n : Nat) (hn : n ≤ 31) :
    (∀ k, k < n → (newFile (iterNewFile s0 k)).2 = Status.ok) ∧
    (0 < n → ((iterNewFile s0 n).fat.files 0).start_addr = 4096) ∧
    (∀ i, i < n → ((iterNewFile s0 n).fat.files i).start_addr % 4096 = 0) ∧
    (∀ i, i + 1 < n →
      ((iterNewFile s0 n).fat.files i).end_addr <
        ((iterNewFile s0 n).fat.files (i + 1)).start_addr ∧
      ((iterNewFile s0 n).fat.files (i + 1)).start_addr =
        (((iterNewFile s0 n).fat.files i).end_addr / 4096 + 1) * 4096) ∧
    ((newFile (iterNewFile s0 n)).2 = Status.no_space ↔ 32 ≤ n + 1) := by
  obtain ⟨i1, i2, i3, i4, i5⟩ := iterNewFile_inv s0 h0 h1 h2 n hn
  refine ⟨i5, ?_, ?_, ?_, ?_, ?_⟩
  · intro hpos
    rw [i4 0 hpos]
  · intro i hi
    rw [i4 i hi]
    dsimp only
    omega
  · intro i hi
    rw [i4 i (by omega), i4 (i + 1) (by omega)]
    dsimp only
    constructor
    · omega
    · have hq : 4096 * (i + 1) / 4096 = i + 1 := by omega
      rw [hq]
      ring
  · intro hns
    by_contra hlt
    obtain ⟨_, _, _, _, j5⟩ := iterNewFile_inv s0 h0 h1 h2 (n + 1) (by omega)
    have := j5 n (by omega)
    rw [this] at hns
    exact absurd hns (by decide)
  · intro hge
    have hn31 : n = 31 := by omega
    subst hn31
    have hc : (close (iterNewFile s0 31)).1.fat.file_count = 31 := by
      rw [close_count, i1]
    unfold newFile
    dsimp only
    rw [hc]
    rw [if_neg (by decide : ¬ (mod32 (31 + 1) < 32))]

/-- C7 witness: two `createFile` calls from a fresh store. -/
theorem C7_witness :
    cleanState.mode = FlashStorageMode.no_mode ∧ cleanState.buff_index = 0 ∧
    cleanState.fat.file_count = 0 ∧
    ((∀ k, k < 2 → (newFile (iterNewFile cleanState k)).2 = Status.ok) ∧
      (0 < 2 → ((iterNewFile cleanState 2).fat.files 0).start_addr = 4096) ∧
      (∀ i, i < 2 →
        ((iterNewFile cleanState 2).fat.files i).start_addr % 4096 = 0) ∧
      (∀ i, i + 1 < 2 →
        ((iterNewFile cleanState 2).fat.files i).end_addr <
          ((iterNewFile cleanState 2).fat.files (i + 1)).start_addr ∧
        ((iterNewFile cleanState 2).fat.files (i + 1)).start_addr =
          (((iterNewFile cleanState 2).fat.files i).end_addr / 4096 + 1) * 4096) ∧
      ((newFile (iterNewFile cleanState 2)).2 = Status.no_space ↔ 32 ≤ 2 + 1)) :=
  ⟨rfl, rfl, rfl, C7_sequential_allocation cleanState rfl rfl rfl 2 (by omega)⟩

/-! ### FAT codec round trip (C6) -/

theorem flatten_getD_five :
    ∀ (L : List (List Nat)), (∀ l ∈ L, l.length = 5) →
      ∀ (i j : Nat), i < L.length → j < 5 →
        L.flatten.getD (5 * i + j) 0 = (L.getD i []).getD j 0
  | [], _, i, _, hi, _ => absurd hi (by simp)
  | l :: L', hL, 0, j, hi, hj => by
    rw [List.flatten_cons, Nat.mul_zero, Nat.zero_add]
    rw [List.getD_append _ _ _ _ (by rw [hL l (List.mem_cons_self l L')]; omega)]
    rw [List.getD_cons_zero]
  | l :: L', hL, i + 1, j, hi, hj => by
    rw [List.flatten_cons]
    have hl : l.length = 5 := hL l (List.mem_cons_self l L')
    rw [List.getD_append_right _ _ _ _ (by rw [hl]; omega)]
    rw [hl, show 5 * (i + 1) + j - 5 = 5 * i + j from by omega]
    rw [flatten_getD_five L' (fun x hx => hL x (List.mem_cons_of_mem _ hx)) i j
      (by simpa using hi) hj]
    rw [List.getD_cons_succ]

theorem fatEncode_take6 (T : FlashStorageFAT) (o : Nat) :
    (fatEncode T o).take 6 = identificationString := by
  unfold fatEncode
  rw [List.append_assoc]
  exact List.take_left' rfl

theorem fatEncode_countByte (T : FlashStorageFAT) (o : Nat)
    (hc : T.file_count ≤ 255) :
    (fatEncode T o).getD 6 0 = T.file_count := by
  unfold fatEncode
  rw [List.append_assoc]
  rw [List.getD_append_right _ _ _ _ (by rw [show identificationString.length = 6 from rfl])]
  rw [show (6 : Nat) - identificationString.length = 0 from rfl]
  rw [List.cons_append, List.getD_cons_zero]
  omega

theorem fatEncode_recByte (T : FlashStorageFAT) (o : Nat) (i j : Nat)
    (hi : i < T.file_count) (hj : j < 5) :
    (fatEncode T o).getD (8 + 5 * i + j) 0 =
      (fatRecordBytes (T.files i)).getD j 0 := by
  unfold fatEncode
  rw [List.append_assoc]
  rw [List.getD_append_right _ _ _ _
    (by rw [show identificationString.length = 6 from rfl]; omega)]
  rw [show (8 + 5 * i + j - identificationString.length) = 5 * i + j + 1 + 1
    from by rw [show identificationString.length = 6 from rfl]; omega]
  rw [List.cons_append, List.cons_append, List.nil_append]
  rw [List.getD_cons_succ, List.getD_cons_succ]
  rw [flatten_getD_five _
    (by
      intro l hl
      obtain ⟨k, _, rfl⟩ := List.mem_map.mp hl
      rfl)
    i j (by simp [hi]) hj]
  congr 1
  rw [List.getD_eq_getElem _ _ (by simp [hi])]
  rw [List.getElem_map]
  rw [List.getElem_range]

theorem fatEncode_congr (A B : FlashStorageFAT) (o : Nat)
    (hcount : A.file_count = B.file_count)
    (hfiles : ∀ i, i < B.file_count →
      fatRecordBytes (A.files i) = fatRecordBytes (B.files i)) :
    fatEncode A o = fatEncode B o := by
  unfold fatEncode
  rw [hcount]
  congr 2
  apply List.map_congr_left
  intro i hmem
  exact hfiles i (List.mem_range.mp hmem)

theorem fatDecodeStart_eq (s : Nat) :
    fatDecodeStart (s >>> 16 % 256) (s >>> 8 % 256) =
      s / 2 ^ 16 % 256 * 2 ^ 16 + s / 2 ^ 8 % 256 * 2 ^ 8 := by
  unfold fatDecodeStart
  simp only [Nat.shiftRight_eq_div_pow]
  rw [lor_small (s / 2 ^ 16 % 256) (s / 2 ^ 8 % 256) (by omega)]
  rw [Nat.shiftLeft_eq]
  rw [mod32_small (by omega)]
  ring

theorem fatDecodeEnd_eq (e : Nat) (he : e % 256 = 0) :
    fatDecodeEnd (e >>> 16 % 256) (e >>> 8 % 256) (e % 256) =
      e / 2 ^ 16 % 256 * 2 ^ 16 + e / 2 ^ 8 % 256 * 2 ^ 8 := by
  unfold fatDecodeEnd
  rw [he]
  simp only [Nat.shiftRight_eq_div_pow]
  rw [lor_small (e / 2 ^ 16 % 256) (e / 2 ^ 8 % 256) (by omega)]
  rw [Nat.shiftLeft_eq, Nat.add_zero]
  rw [mod32_small (by omega)]
  ring

/-- Re-encoding a decoded record reproduces the original record bytes,
provided the end address is at 256-byte resolution. -/
theorem fatRecordBytes_roundtrip (r : FlashStorageFile)
    (he : r.end_addr % 256 = 0) :
    fatRecordBytes
      { start_addr := fatDecodeStart (r.start_addr >>> 16 % 256)
          (r.start_addr >>> 8 % 256)
        end_addr := fatDecodeEnd (r.end_addr >>> 16 % 256)
          (r.end_addr >>> 8 % 256) (r.end_addr % 256) } =
      fatRecordBytes r := by
  unfold fatRecordBytes
  dsimp only
  rw [fatDecodeStart_eq, fatDecodeEnd_eq _ he]
  simp only [Nat.shiftRight_eq_div_pow]
  refine List.cons_eq_cons.mpr ⟨by omega, ?_⟩
  refine List.cons_eq_cons.mpr ⟨by omega, ?_⟩
  refine List.cons_eq_cons.mpr ⟨by omega, ?_⟩
  refine List.cons_eq_cons.mpr ⟨by omega, ?_⟩
  refine List.cons_eq_cons.mpr ⟨by omega, rfl⟩

/-- C6: the FAT codec round trip.  For every table whose records fit the
5-byte, 256-byte-resolution encoding, re-encoding the decoded image of the
encoded table reproduces the encoded bytes exactly; `P` is the arbitrary
in-memory table the decode overwrites. -/
theorem C6_fat_codec_round_trip (T P : FlashStorageFAT) (o : Nat)
    (hc : T.file_count ≤ 32)
    (hfit : ∀ i, i < T.file_count →
      (T.files i).start_addr % 4096 = 0 ∧ (T.files i).start_addr < 2 ^ 24 ∧
      (T.files i).end_addr % 256 = 0 ∧ (T.files i).end_addr < 2 ^ 24) :
    fatEncode ((readFATParse P (fatEncode T o)).1) o = fatEncode T o := by
  have hcb := fatEncode_countByte T o (by omega)
  unfold readFATParse
  rw [if_pos (fatEncode_take6 T o)]
  dsimp only
  rw [hcb]
  apply fatEncode_congr
  · rfl
  · intro i hi
    dsimp only
    rw [if_pos hi]
    have h0 := fatEncode_recByte T o i 0 hi (by omega)
    have h1 := fatEncode_recByte T o i 1 hi (by omega)
    have h2 := fatEncode_recByte T o i 2 hi (by omega)
    have h3 := fatEncode_recByte T o i 3 hi (by omega)
    have h4 := fatEncode_recByte T o i 4 hi (by omega)
    rw [Nat.add_zero] at h0
    unfold fatRecordBytes at h0 h1 h2 h3 h4
    simp only [List.getD_cons_zero, List.getD_cons_succ] at h0 h1 h2 h3 h4
    rw [h0, h1, h2, h3, h4]
    exact fatRecordBytes_roundtrip (T.files i) (hfit i hi).2.2.1

/-- C6 witness at a concrete two-file table. -/
theorem C6_witness :
    (let T : FlashStorageFAT :=
      { files := fun i => if i = 0 then ⟨4096, 8448⟩
          else if i = 1 then ⟨12288, 12288⟩ else ⟨0, 0⟩
        file_count := 2 }
     T.file_count ≤ 32 ∧
     (∀ i, i < T.file_count →
       (T.files i).start_addr % 4096 = 0 ∧ (T.files i).start_addr < 2 ^ 24 ∧
       (T.files i).end_addr % 256 = 0 ∧ (T.files i).end_addr < 2 ^ 24) ∧
     fatEncode ((readFATParse T (fatEncode T 3)).1) 3 = fatEncode T 3) := by
  refine ⟨by decide, by decide, ?_⟩
  exact C6_fat_codec_round_trip _ _ 3 (by decide) (by decide)

/-! ### The write-session invariant (C4, C1) -/

theorem slice_getD (l : List Nat) (off len k : Nat) (hk : k < len)
    (hlen : off + len ≤ l.length) :
    ((l.drop off).take len).getD k 0 = l.getD (off + k) 0 := by
  rw [List.getD_eq_getElem _ _ (by
    rw [List.length_take, List.length_drop]
    omega)]
  rw [List.getElem_take, List.getElem_drop]
  rw [List.getD_eq_getElem _ _ (by omega)]

theorem sectorList_snoc (start F : Nat) (hs : start % 4096 = 0)
    (hF : F % 4096 = 0) (hle : start ≤ F) :
    sectorList start (F + 4096) = sectorList start F ++ [F] := by
  unfold sectorList
  rw [show (F + 4096 - start) / 4096 = ((F - start) / 4096).succ from by omega]
  rw [List.range_succ, List.map_append]
  congr 1
  simp only [List.map_cons, List.map_nil]
  congr 1
  omega

theorem sectorList_one (start : Nat) :
    sectorList start (start + 4096) = [start] := by
  unfold sectorList
  rw [show (start + 4096 - start) / 4096 = 1 from by omega]
  rw [show List.range 1 = [0] from rfl]
  simp

/-- Invariant of an open write session that has absorbed the byte sequence
`D` since the file was created at sector-aligned address `start`: the
flushed prefix of `D` is programmed at `start`, its tail sits in the FIFO
buffer, everything from the cursor to the erased frontier is erased, and
the erase trace at addresses ≥ `start` holds exactly one erase per sector
boundary from `start` up to the frontier (no redundant or missing
erase). -/
structure SInv (start : Nat) (D : List Nat) (s : State) : Prop where
  mode : s.mode = FlashStorageMode.write_mode
  look : s.lookahead_erase_size = 1024
  start_align : start % 4096 = 0
  start_pos : 4096 ≤ start
  bi_cap : s.buff_index ≤ 1024
  bi_le : s.buff_index ≤ D.length
  cursor : s.curr_addr = start + (D.length - s.buff_index)
  flushed_align : (D.length - s.buff_index) % 256 = 0
  frontier_align : s.max_erased_addr % 4096 = 0
  frontier_lt : s.curr_addr < s.max_erased_addr
  frontier_ub : s.max_erased_addr ≤ s.curr_addr + 5120
  big : start + D.length + 10240 < 2 ^ 32
  flash_data : ∀ i, i < D.length - s.buff_index →
    s.flash (start + i) = D.getD i 0 % 256
  buf_data : ∀ j, j < s.buff_index →
    s.buff j = D.getD (D.length - s.buff_index + j) 0
  flash_erased : ∀ a, s.curr_addr ≤ a → a < s.max_erased_addr → s.flash a = 255
  htrace : (eraseAddrs s.trace).filter (fun a => decide (start ≤ a)) =
    sectorList start s.max_erased_addr

/-- Copying `len` caller bytes into the FIFO buffer extends the absorbed
sequence without touching flash, cursor or frontier. -/
theorem SInv_copy (start : Nat) (D : List Nat) (s : State) (data : List Nat)
    (dst off len nbi : Nat) (hdst : dst = s.buff_index)
    (hnbi : nbi = s.buff_index + len)
    (hoff : off + len ≤ data.length) (hfit : s.buff_index + len ≤ 1024)
    (h : SInv start D s)
    (hbig : start + (D.length + len) + 10240 < 2 ^ 32) :
    SInv start (D ++ (data.drop off).take len)
      { memcpyBuff s dst data off len with buff_index := nbi } := by
  subst hdst hnbi
  have hslicelen : ((data.drop off).take len).length = len := by
    rw [List.length_take, List.length_drop]
    omega
  have hDlen : (D ++ (data.drop off).take len).length = D.length + len := by
    rw [List.length_append, hslicelen]
  have hbile := h.bi_le
  have hcur := h.cursor
  have hflal := h.flushed_align
  unfold memcpyBuff
  dsimp only
  refine ⟨h.mode, h.look, h.start_align, h.start_pos, ?_, ?_, ?_, ?_,
    h.frontier_align, h.frontier_lt, h.frontier_ub, ?_, ?_, ?_, h.flash_erased,
    h.htrace⟩
  · exact hfit
  · dsimp only
    rw [hDlen]
    omega
  · dsimp only
    rw [hDlen]
    omega
  · dsimp only
    rw [hDlen]
    omega
  · dsimp only
    rw [hDlen]
    omega
  · intro i hi
    dsimp only at hi ⊢
    rw [hDlen] at hi
    rw [List.getD_append _ _ _ _ (by omega)]
    exact h.flash_data i (by omega)
  · intro j hj
    dsimp only at hj ⊢
    rw [hDlen]
    by_cases hjold : j < s.buff_index
    · rw [if_neg (by omega)]
      rw [h.buf_data j hjold]
      rw [List.getD_append _ _ _ _ (by omega)]
      congr 1
      omega
    · rw [if_pos (by omega)]
      rw [List.getD_append_right _ _ _ _ (by omega)]
      rw [show D.length + len - (s.buff_index + len) + j - D.length
        = j - s.buff_index from by omega]
      rw [slice_getD data off len (j - s.buff_index) (by omega) hoff]

/-- The look-ahead erase preserves the session invariant (whether or not
the device reports busy). -/
theorem SInv_eraseNext (start : Nat) (D : List Nat) (s : State) (bz : Bool)
    (h : SInv start D s)
    (htrig : s.max_erased_addr ≤ s.curr_addr + 1024) :
    SInv start D (eraseNextSector s bz).1 := by
  cases bz with
  | true => exact h
  | false =>
    have hFstart : start ≤ s.max_erased_addr := by
      have := h.frontier_lt
      have := h.cursor
      omega
    have hFlt : s.max_erased_addr + 4096 < 2 ^ 32 := by
      have := h.frontier_ub
      have := h.cursor
      have := h.big
      have := h.bi_le
      omega
    rw [show (eraseNextSector s false).1 =
      { s with
        flash := fun a =>
          if a / 4096 = s.max_erased_addr / 4096 then 255 else s.flash a
        trace := s.trace ++ [DevOp.sectorErase s.max_erased_addr]
        max_erased_addr := mod32 (s.max_erased_addr + 4096) } from rfl]
    rw [mod32_small hFlt]
    refine ⟨h.mode, h.look, h.start_align, h.start_pos, h.bi_cap, h.bi_le,
      h.cursor, h.flushed_align, ?_, ?_, ?_, h.big, ?_, h.buf_data, ?_, ?_⟩
    · show (s.max_erased_addr + 4096) % 4096 = 0
      have := h.frontier_align
      omega
    · show s.curr_addr < s.max_erased_addr + 4096
      have := h.frontier_lt
      omega
    · show s.max_erased_addr + 4096 ≤ s.curr_addr + 5120
      omega
    · intro i hi
      have hi2 : i < D.length - s.buff_index := hi
      show (if (start + i) / 4096 = s.max_erased_addr / 4096 then 255
        else s.flash (start + i)) = D.getD i 0 % 256
      rw [if_neg (by
        have := h.cursor
        have := h.frontier_lt
        have := h.frontier_align
        have := h.bi_le
        omega)]
      exact h.flash_data i hi2
    · intro a ha1 ha2
      have ha1b : s.curr_addr ≤ a := ha1
      have ha2b : a < s.max_erased_addr + 4096 := ha2
      show (if a / 4096 = s.max_erased_addr / 4096 then 255 else s.flash a)
        = 255
      by_cases hin : a / 4096 = s.max_erased_addr / 4096
      · rw [if_pos hin]
      · rw [if_neg hin]
        exact h.flash_erased a ha1b (by
          have := h.frontier_align
          omega)
    · show (eraseAddrs (s.trace ++ [DevOp.sectorErase s.max_erased_addr])).filter
        (fun a => decide (start ≤ a)) = sectorList start (s.max_erased_addr + 4096)
      rw [eraseAddrs_append, List.filter_append]
      rw [h.htrace]
      rw [show eraseAddrs [DevOp.sectorErase s.max_erased_addr]
        = [s.max_erased_addr] from rfl]
      rw [show List.filter (fun a => decide (start ≤ a)) [s.max_erased_addr]
        = [s.max_erased_addr] from by simp [hFstart]]
      exact (sectorList_snoc start s.max_erased_addr h.start_align
        h.frontier_align hFstart).symm

/-- Flushing the FIFO at a page-multiple fill level preserves the session
invariant (the absorbed sequence is unchanged; its buffered tail moves to
flash). -/
theorem SInv_flush (start : Nat) (D : List Nat) (s : State)
    (h : SInv start D s) (hbal : s.buff_index % 256 = 0) :
    (writeFIFO s).2 = Status.ok ∧ SInv start D (writeFIFO s).1 := by
  have hcur := h.cursor
  have hbile := h.bi_le
  have hbicap := h.bi_cap
  have hflal := h.flushed_align
  have hbig := h.big
  have hfub := h.frontier_ub
  have hflt := h.frontier_lt
  have hfal := h.frontier_align
  have hsal := h.start_align
  have hspos := h.start_pos
  have ha : s.curr_addr % 256 = 0 := by omega
  have hc32 : s.curr_addr + s.buff_index < 2 ^ 32 := by omega
  by_cases hE : s.curr_addr + s.buff_index < s.max_erased_addr
  · obtain ⟨w1, w2, w3, w4, w5, w6, w7, w8, w9, w10, w11⟩ :=
      writeFIFO_spec_noerase s ha hbicap hE hc32
    refine ⟨w1, ?_⟩
    refine ⟨by rw [w6]; exact h.mode, by rw [w9]; exact h.look, hsal,
      hspos, by rw [w3]; omega, by rw [w3]; omega, by rw [w2, w3]; omega,
      by rw [w3]; omega, by rw [w4]; exact hfal, by rw [w2, w4]; omega,
      by rw [w2, w4]; omega, hbig, ?_, ?_, ?_, ?_⟩
    · intro i hi
      rw [w3] at hi
      rw [w10]
      by_cases hold : i < D.length - s.buff_index
      · rw [if_neg (by omega)]
        exact h.flash_data i hold
      · rw [if_pos (by omega)]
        rw [h.flash_erased (start + i) (by omega) (by omega)]
        rw [show start + i - s.curr_addr = i - (D.length - s.buff_index)
          from by omega]
        rw [h.buf_data (i - (D.length - s.buff_index)) (by omega)]
        rw [show D.length - s.buff_index + (i - (D.length - s.buff_index)) = i
          from by omega]
        exact land_255 _
    · intro j hj
      rw [w3] at hj
      omega
    · intro a ha1 ha2
      rw [w2] at ha1
      rw [w4] at ha2
      rw [w10, if_neg (by omega)]
      exact h.flash_erased a (by omega) ha2
    · rw [w11, w4]
      exact h.htrace
  · have hm32 : s.max_erased_addr + 4096 < 2 ^ 32 := by omega
    obtain ⟨w1, w2, w3, w4, w5, w6, w7, w8, w9, w10, w11⟩ :=
      writeFIFO_spec_erase s ha hbicap (by omega) hfal hc32 hm32
    have hsleF : start ≤ s.max_erased_addr := by omega
    refine ⟨w1, ?_⟩
    refine ⟨by rw [w6]; exact h.mode, by rw [w9]; exact h.look, hsal,
      hspos, by rw [w3]; omega, by rw [w3]; omega, by rw [w2, w3]; omega,
      by rw [w3]; omega, by rw [w4]; omega, by rw [w2, w4]; omega,
      by rw [w2, w4]; omega, hbig, ?_, ?_, ?_, ?_⟩
    · intro i hi
      rw [w3] at hi
      rw [w10]
      by_cases hold : i < D.length - s.buff_index
      · rw [if_neg (by omega)]
        rw [if_neg (by omega)]
        exact h.flash_data i hold
      · rw [if_pos (by omega)]
        have hbuf : (if s.max_erased_addr ≤ start + i ∧
            start + i < s.max_erased_addr + 4096
            then 255 else s.flash (start + i)) = 255 := by
          by_cases hm : s.max_erased_addr ≤ start + i
          · rw [if_pos (by constructor; omega; omega)]
          · rw [if_neg (by omega)]
            exact h.flash_erased (start + i) (by omega) (by omega)
        rw [hbuf]
        rw [show start + i - s.curr_addr = i - (D.length - s.buff_index)
          from by omega]
        rw [h.buf_data (i - (D.length - s.buff_index)) (by omega)]
        rw [show D.length - s.buff_index + (i - (D.length - s.buff_index)) = i
          from by omega]
        exact land_255 _
    · intro j hj
      rw [w3] at hj
      omega
    · intro a ha1 ha2
      rw [w2] at ha1
      rw [w4] at ha2
      rw [w10, if_neg (by omega)]
      by_cases hm : s.max_erased_addr ≤ a
      · rw [if_pos (by constructor; omega; omega)]
      · rw [if_neg (by omega)]
        exact h.flash_erased a (by omega) (by omega)
    · rw [w11, w4, List.filter_append, h.htrace]
      rw [show List.filter (fun a => decide (start ≤ a)) [s.max_erased_addr]
        = [s.max_erased_addr] from by simp [hsleF]]
      exact (sectorList_snoc start s.max_erased_addr hsal hfal hsleF).symm

/-- The trailing look-ahead-erase trigger of `write` preserves the session
invariant, and with a non-busy device the call reports success. -/
theorem SInv_finishWrite (start : Nat) (D : List Nat) (s2 : State) (bz : Bool)
    (h2 : SInv start D s2) :
    SInv start D
      (if s2.curr_addr > sub32 s2.max_erased_addr s2.lookahead_erase_size
       then eraseNextSector s2 bz else (s2, Status.ok)).1 ∧
    (bz = false →
      (if s2.curr_addr > sub32 s2.max_erased_addr s2.lookahead_erase_size
       then eraseNextSector s2 bz else (s2, Status.ok)).2 = Status.ok) := by
  have hcur := h2.cursor
  have hbile := h2.bi_le
  have hflt := h2.frontier_lt
  have hfub := h2.frontier_ub
  have hbig := h2.big
  have hspos := h2.start_pos
  have h1024 : 1024 ≤ s2.max_erased_addr := by omega
  rw [h2.look]
  rw [sub32_sub h1024 (by omega)]
  by_cases htr : s2.curr_addr > s2.max_erased_addr - 1024
  · rw [if_pos htr]
    refine ⟨SInv_eraseNext start D s2 bz h2 (by omega), ?_⟩
    intro hbz
    subst hbz
    rfl
  · rw [if_neg htr]
    exact ⟨h2, fun _ => rfl⟩

/-- The refill-and-flush loop of `write` absorbs `data` up to the returned
index while preserving the session invariant with an empty buffer. -/
theorem writeLoop_SInv (start : Nat) (D data : List Nat) (s : State) (i : Nat)
    (h : SInv start (D ++ data.take i) s) (hbi : s.buff_index = 0)
    (hi : i ≤ data.length)
    (hbig : start + (D.length + data.length) + 10240 < 2 ^ 32) :
    SInv start (D ++ data.take (writeLoop s data i).2) (writeLoop s data i).1 ∧
    (writeLoop s data i).1.buff_index = 0 ∧
    i ≤ (writeLoop s data i).2 ∧ (writeLoop s data i).2 ≤ data.length ∧
    data.length ≤ (writeLoop s data i).2 + 1024 := by
  rw [writeLoop]
  split
  next hg =>
    have hcopy := SInv_copy start (D ++ data.take i) s data 0 i 1024 1024
      hbi.symm (by omega) (by omega) (by omega) h
      (by
        rw [List.length_append, List.length_take]
        omega)
    rw [List.append_assoc, ← List.take_add] at hcopy
    have hflush := SInv_flush start (D ++ data.take (i + 1024))
      { memcpyBuff s 0 data i 1024 with buff_index := 1024 } hcopy
      (by show (1024 : Nat) % 256 = 0; rfl)
    have ih := writeLoop_SInv start D data
      ((writeFIFO { memcpyBuff s 0 data i 1024 with buff_index := 1024 }).1)
      (i + 1024) hflush.2 (writeFIFO_buffIndex _) (by omega) hbig
    dsimp only at ih ⊢
    exact ⟨ih.1, ih.2.1, by omega, ih.2.2.2.1, ih.2.2.2.2⟩
  next hg =>
    exact ⟨h, hbi, le_refl _, hi, by omega⟩
termination_by data.length - i
decreasing_by simp_wf; omega

/-- The trailing `memcpy` of `write` (after the refill loop) absorbs the
remaining bytes of `data`. -/
theorem SInv_finalCopy (start : Nat) (D : List Nat) (si1 : State)
    (data : List Nat) (k : Nat)
    (h : SInv start (D ++ data.take k) si1) (hbi : si1.buff_index = 0)
    (hk : k ≤ data.length) (hk2 : data.length ≤ k + 1024)
    (hbig : start + (D.length + data.length) + 10240 < 2 ^ 32) :
    SInv start (D ++ data)
      { memcpyBuff si1 0 data k (sub32 data.length k) with
        buff_index := mod32 (si1.buff_index + sub32 data.length k) } := by
  have hsub : sub32 data.length k = data.length - k := sub32_sub hk (by omega)
  rw [hsub]
  have hfin := SInv_copy start (D ++ data.take k) si1 data 0 k
    (data.length - k) (mod32 (si1.buff_index + (data.length - k)))
    hbi.symm
    (by rw [hbi]; exact mod32_small (by omega))
    (by omega)
    (by rw [hbi]; omega)
    h
    (by rw [List.length_append, List.length_take]; omega)
  rw [show (data.drop k).take (data.length - k) = data.drop k from by
    rw [show data.length - k = (data.drop k).length from by
      rw [List.length_drop]]
    exact List.take_length _] at hfin
  rw [List.append_assoc, List.take_append_drop] at hfin
  exact hfin

/-- `write` in an invariant-respecting session absorbs exactly its `data`
argument, preserving the invariant; with a non-busy device it returns
`Ok`. -/
theorem write_SInv (start : Nat) (D : List Nat) (s : State) (data : List Nat)
    (bz : Bool) (h : SInv start D s)
    (hbig : start + (D.length + data.length) + 10240 < 2 ^ 32) :
    SInv start (D ++ data) (write s data bz).1 ∧
    (bz = false → (write s data bz).2 = Status.ok) := by
  have hmode := h.mode
  have hbicap := h.bi_cap
  have hbile := h.bi_le
  have hbig0 := h.big
  have hrem : sub32 1024 s.buff_index = 1024 - s.buff_index :=
    sub32_sub (by omega) (by omega)
  unfold write
  rw [if_neg (by rw [hmode]; simp)]
  dsimp only
  rw [hrem]
  by_cases hA : 1024 - s.buff_index > data.length
  · rw [if_pos hA]
    have hcopy := SInv_copy start D s data s.buff_index 0 data.length
      (mod32 (s.buff_index + data.length)) rfl
      (mod32_small (by omega)) (by omega) (by omega) h (by omega)
    rw [List.drop_zero, List.take_length] at hcopy
    exact SInv_finishWrite start (D ++ data) _ bz hcopy
  · rw [if_neg hA]
    have hAle : 1024 - s.buff_index ≤ data.length := by omega
    have hcopy := SInv_copy start D s data s.buff_index 0
      (1024 - s.buff_index) (mod32 (s.buff_index + (1024 - s.buff_index)))
      rfl (mod32_small (by omega)) (by omega) (by omega) h (by omega)
    rw [List.drop_zero] at hcopy
    have hflush := SInv_flush start (D ++ data.take (1024 - s.buff_index))
      { memcpyBuff s s.buff_index data 0 (1024 - s.buff_index) with
        buff_index := mod32 (s.buff_index + (1024 - s.buff_index)) }
      hcopy
      (by
        show mod32 (s.buff_index + (1024 - s.buff_index)) % 256 = 0
        unfold mod32
        omega)
    obtain ⟨hli, hlb, hl1, hl2, hl3⟩ := writeLoop_SInv start D data
      ((writeFIFO
        { memcpyBuff s s.buff_index data 0 (1024 - s.buff_index) with
          buff_index := mod32 (s.buff_index + (1024 - s.buff_index)) }).1)
      (1024 - s.buff_index) hflush.2 (writeFIFO_buffIndex _) hAle hbig
    exact SInv_finishWrite start (D ++ data) _ bz
      (SInv_finalCopy start D _ data _ hli hlb hl2 hl3 hbig)

/-- `newFile` on a fresh store (no mode, empty buffer, empty table, fresh
flash trace) succeeds and establishes the write-session invariant at
start address 4096 with nothing absorbed yet. -/
theorem newFile_SInv (s0 : State)
    (hm : s0.mode = FlashStorageMode.no_mode) (hb : s0.buff_index = 0)
    (hc : s0.fat.file_count = 0) (hl : s0.lookahead_erase_size = 1024)
    (htr : s0.trace = []) :
    (newFile s0).2 = Status.ok ∧ SInv 4096 [] (newFile s0).1 := by
  have ht : (close s0).1 = s0 := by
    unfold close
    rw [hm]
  have hst : newFileStart s0 = 4096 := by
    unfold newFileStart
    rw [if_neg (by simp [hc])]
  obtain ⟨n1, n2, n3, n4, n5, n6, n7, n8, n9, n10, n11, n12, n13, n14⟩ :=
    newFile_body_spec s0 s0 ht (by simp [hc])
      (fun hne => absurd hc hne)
  refine ⟨n1, ?_⟩
  refine ⟨n4, by rw [n7]; exact hl, by decide, le_refl _, ?_, ?_, ?_, ?_,
    ?_, ?_, ?_, by simp, ?_, ?_, ?_, ?_⟩
  · rw [n5, hb]
    omega
  · rw [n5, hb]
    exact le_refl _
  · rw [n8, hst, n5, hb]
    rfl
  · rw [n5, hb]
    rfl
  · rw [n9, hst]
  · rw [n8, n9]
    omega
  · rw [n8, n9]
    omega
  · intro i hi
    rw [n5, hb] at hi
    simp at hi
  · intro j hj
    rw [n5, hb] at hj
    simp at hj
  · intro a ha1 ha2
    rw [n8] at ha1
    rw [n9] at ha2
    exact n12 a ha1 ha2
  · rw [n14, htr, hst, n9, hst]
    have hfl : (eraseAddrs ([] : List DevOp) ++ [4096, 0]).filter
        (fun a => decide (4096 ≤ a)) = [4096] := by decide
    rw [hfl]
    exact (sectorList_one 4096).symm

/-- A whole sequence of `write` calls (each with the device-busy answer
its optional look-ahead erase sees) preserves the session invariant,
absorbing the concatenation of the written byte sequences. -/
theorem applyWrites_SInv (ws : List (List Nat × Bool)) (start : Nat)
    (D : List Nat) (s : State) (h : SInv start D s)
    (hbig : start + (D.length + ((ws.map fun w => w.1.length).sum)) + 10240
      < 2 ^ 32) :
    SInv start (D ++ (ws.map fun w => w.1).flatten) (applyWrites s ws) := by
  induction ws generalizing D s with
  | nil =>
    simp only [List.map_nil, List.flatten_nil, List.append_nil]
    exact h
  | cons w ws ih =>
    simp only [List.map_cons, List.sum_cons] at hbig
    have hw := (write_SInv start D s w.1 w.2 h (by omega)).1
    have := ih (D ++ w.1) (write s w.1 w.2).1 hw
      (by rw [List.length_append]; omega)
    rw [List.map_cons, List.flatten_cons, ← List.append_assoc]
    exact this

/-- C4: after a successful `newFile` on a fresh store, every prefix of an
arbitrary sequence of `write` calls leaves the cursor strictly below the
erased frontier, every address from the cursor up to the frontier erased,
and the erase trace at addresses in the file area holding exactly one
erase per sector boundary from the file start up to the frontier — no
redundant and no missing erase. -/
theorem C4_erase_scheduler_invariant (s0 : State)
    (ws : List (List Nat × Bool))
    (hm : s0.mode = FlashStorageMode.no_mode) (hb : s0.buff_index = 0)
    (hc : s0.fat.file_count = 0) (hl : s0.lookahead_erase_size = 1024)
    (htr : s0.trace = [])
    (hbig : 4096 + ((ws.map fun w => w.1.length).sum) + 10240 < 2 ^ 32) :
    (newFile s0).2 = Status.ok ∧
    ∀ k, k ≤ ws.length →
      (applyWrites (newFile s0).1 (ws.take k)).curr_addr
        < (applyWrites (newFile s0).1 (ws.take k)).max_erased_addr ∧
      (∀ a, (applyWrites (newFile s0).1 (ws.take k)).curr_addr ≤ a →
        a < (applyWrites (newFile s0).1 (ws.take k)).max_erased_addr →
        (applyWrites (newFile s0).1 (ws.take k)).flash a = 255) ∧
      (eraseAddrs (applyWrites (newFile s0).1 (ws.take k)).trace).filter
          (fun a => decide (4096 ≤ a))
        = sectorList 4096
            (applyWrites (newFile s0).1 (ws.take k)).max_erased_addr := by
  obtain ⟨hok, hinv⟩ := newFile_SInv s0 hm hb hc hl htr
  refine ⟨hok, ?_⟩
  intro k hk
  have hsum : (((ws.take k).map fun w => w.1.length).sum)
      + (((ws.drop k).map fun w => w.1.length).sum)
      = ((ws.map fun w => w.1.length).sum) := by
    rw [← List.sum_append, ← List.map_append, List.take_append_drop]
  have hinvk := applyWrites_SInv (ws.take k) 4096 [] (newFile s0).1 hinv
    (by simp only [List.length_nil]; omega)
  exact ⟨hinvk.frontier_lt, hinvk.flash_erased, hinvk.htrace⟩

/-- C4 witness: a fresh store, one 80-byte write followed by one
3000-byte write. -/
theorem C4_witness :
    (cleanState.mode = FlashStorageMode.no_mode ∧
     cleanState.buff_index = 0 ∧
     cleanState.fat.file_count = 0 ∧
     cleanState.lookahead_erase_size = 1024 ∧
     cleanState.trace = ([] : List DevOp) ∧
     4096 + ((([(List.replicate 80 7, false),
        (List.replicate 3000 9, true)].map fun w => w.1.length).sum))
        + 10240 < 2 ^ 32) ∧
    ((newFile cleanState).2 = Status.ok ∧
     ∀ k, k ≤ [(List.replicate 80 7, false),
        (List.replicate 3000 9, true)].length →
      (applyWrites (newFile cleanState).1
          ([(List.replicate 80 7, false),
            (List.replicate 3000 9, true)].take k)).curr_addr
        < (applyWrites (newFile cleanState).1
            ([(List.replicate 80 7, false),
              (List.replicate 3000 9, true)].take k)).max_erased_addr ∧
      (∀ a, (applyWrites (newFile cleanState).1
            ([(List.replicate 80 7, false),
              (List.replicate 3000 9, true)].take k)).curr_addr ≤ a →
        a < (applyWrites (newFile cleanState).1
            ([(List.replicate 80 7, false),
              (List.replicate 3000 9, true)].take k)).max_erased_addr →
        (applyWrites (newFile cleanState).1
            ([(List.replicate 80 7, false),
              (List.replicate 3000 9, true)].take k)).flash a = 255) ∧
      (eraseAddrs (applyWrites (newFile cleanState).1
            ([(List.replicate 80 7, false),
              (List.replicate 3000 9, true)].take k)).trace).filter
          (fun a => decide (4096 ≤ a))
        = sectorList 4096
            (applyWrites (newFile cleanState).1
              ([(List.replicate 80 7, false),
                (List.replicate 3000 9, true)].take k)).max_erased_addr) :=
  ⟨⟨rfl, rfl, rfl, rfl, rfl, by
      simp only [List.map_cons, List.map_nil, List.sum_cons, List.sum_nil,
        List.length_replicate]
      norm_num⟩,
   C4_erase_scheduler_invariant cleanState
     [(List.replicate 80 7, false), (List.replicate 3000 9, true)]
     rfl rfl rfl rfl rfl (by
      simp only [List.map_cons, List.map_nil, List.sum_cons, List.sum_nil,
        List.length_replicate]
      norm_num)⟩

/-- The refill loop never touches the FAT or the open-file index. -/
theorem writeLoop_frame (data : List Nat) (s : State) (i : Nat) :
    (writeLoop s data i).1.fat = s.fat ∧
    (writeLoop s data i).1.opened_file = s.opened_file := by
  rw [writeLoop]
  split
  next hg =>
    have ih := writeLoop_frame data
      ((writeFIFO { memcpyBuff s 0 data i 1024 with buff_index := 1024 }).1)
      (i + 1024)
    dsimp only at ih ⊢
    refine ⟨?_, ?_⟩
    · rw [ih.1, (writeFIFO_frame_all _).1]
      rfl
    · rw [ih.2, (writeFIFO_frame_all _).2.2.1]
      rfl
  next hg => exact ⟨rfl, rfl⟩
termination_by data.length - i
decreasing_by simp_wf; omega

/-- `write` never touches the file table. -/
theorem write_fat (s : State) (data : List Nat) (bz : Bool) :
    (write s data bz).1.fat = s.fat := by
  unfold write
  split
  · rfl
  · dsimp only
    split
    · split
      · rw [(eraseNextSector_frame _ _).2.2.2.1]
        rfl
      · rfl
    · split
      · rw [(eraseNextSector_frame _ _).2.2.2.1]
        dsimp only [memcpyBuff]
        rw [(writeLoop_frame _ _ _).1, (writeFIFO_frame_all _).1]
      · dsimp only [memcpyBuff]
        rw [(writeLoop_frame _ _ _).1, (writeFIFO_frame_all _).1]

/-- `write` never touches the open-file index. -/
theorem write_opened (s : State) (data : List Nat) (bz : Bool) :
    (write s data bz).1.opened_file = s.opened_file := by
  unfold write
  split
  · rfl
  · dsimp only
    split
    · split
      · rw [(eraseNextSector_frame _ _).2.2.2.2.2.1]
        rfl
      · rfl
    · split
      · rw [(eraseNextSector_frame _ _).2.2.2.2.2.1]
        dsimp only [memcpyBuff]
        rw [(writeLoop_frame _ _ _).2, (writeFIFO_frame_all _).2.2.1]
      · dsimp only [memcpyBuff]
        rw [(writeLoop_frame _ _ _).2, (writeFIFO_frame_all _).2.2.1]

/-- The final flush of a write session (any fill level): the whole absorbed
sequence lands on flash and the cursor moves to the end of the data. -/
theorem flushFinal_spec (start : Nat) (D : List Nat) (s : State)
    (h : SInv start D s) :
    (writeFIFO s).2 = Status.ok ∧
    (writeFIFO s).1.curr_addr = start + D.length ∧
    (writeFIFO s).1.buff_index = 0 ∧
    (writeFIFO s).1.fat = s.fat ∧
    (writeFIFO s).1.mode = s.mode ∧
    (writeFIFO s).1.opened_file = s.opened_file ∧
    (writeFIFO s).1.lookahead_erase_size = s.lookahead_erase_size ∧
    (∀ i, i < D.length → (writeFIFO s).1.flash (start + i) = D.getD i 0 % 256) := by
  have hcur := h.cursor
  have hbile := h.bi_le
  have hbicap := h.bi_cap
  have hflal := h.flushed_align
  have hbig := h.big
  have hfub := h.frontier_ub
  have hflt := h.frontier_lt
  have hfal := h.frontier_align
  have hsal := h.start_align
  have hspos := h.start_pos
  have ha : s.curr_addr % 256 = 0 := by omega
  have hc32 : s.curr_addr + s.buff_index < 2 ^ 32 := by omega
  by_cases hE : s.curr_addr + s.buff_index < s.max_erased_addr
  · obtain ⟨w1, w2, w3, w4, w5, w6, w7, w8, w9, w10, w11⟩ :=
      writeFIFO_spec_noerase s ha hbicap hE hc32
    refine ⟨w1, by rw [w2]; omega, w3, w5, w6, w7, w9, ?_⟩
    intro i hi
    rw [w10]
    by_cases hold : i < D.length - s.buff_index
    · rw [if_neg (by omega)]
      exact h.flash_data i hold
    · rw [if_pos (by omega)]
      rw [h.flash_erased (start + i) (by omega) (by omega)]
      rw [show start + i - s.curr_addr = i - (D.length - s.buff_index)
        from by omega]
      rw [h.buf_data (i - (D.length - s.buff_index)) (by omega)]
      rw [show D.length - s.buff_index + (i - (D.length - s.buff_index)) = i
        from by omega]
      exact land_255 _
  · have hm32 : s.max_erased_addr + 4096 < 2 ^ 32 := by omega
    obtain ⟨w1, w2, w3, w4, w5, w6, w7, w8, w9, w10, w11⟩ :=
      writeFIFO_spec_erase s ha hbicap (by omega) hfal hc32 hm32
    refine ⟨w1, by rw [w2]; omega, w3, w5, w6, w7, w9, ?_⟩
    intro i hi
    rw [w10]
    by_cases hold : i < D.length - s.buff_index
    · rw [if_neg (by omega), if_neg (by omega)]
      exact h.flash_data i hold
    · rw [if_pos (by omega)]
      have hbuf : (if s.max_erased_addr ≤ start + i ∧
          start + i < s.max_erased_addr + 4096
          then 255 else s.flash (start + i)) = 255 := by
        by_cases hmm : s.max_erased_addr ≤ start + i
        · rw [if_pos ⟨hmm, by omega⟩]
        · rw [if_neg (by omega)]
          exact h.flash_erased (start + i) (by omega) (by omega)
      rw [hbuf]
      rw [show start + i - s.curr_addr = i - (D.length - s.buff_index)
        from by omega]
      rw [h.buf_data (i - (D.length - s.buff_index)) (by omega)]
      rw [show D.length - s.buff_index + (i - (D.length - s.buff_index)) = i
        from by omega]
      exact land_255 _

/-- `close` on an invariant-respecting write session: flushes the tail,
stamps the open record's end address with the final cursor
`start + D.length`, persists the table and resets the session counters
(the mode itself stays Writing — the `==` slip). The absorbed bytes are
all on flash afterwards. -/
theorem close_SInv (start : Nat) (D : List Nat) (s : State)
    (h : SInv start D s) :
    (close s).2 = Status.ok ∧
    (close s).1.mode = FlashStorageMode.write_mode ∧
    (close s).1.buff_index = 0 ∧
    (close s).1.opened_file = 0 ∧
    (close s).1.curr_addr = 0 ∧
    (close s).1.max_erased_addr = 0 ∧
    (close s).1.lookahead_erase_size = 1024 ∧
    (close s).1.fat.file_count = s.fat.file_count ∧
    (∀ i, (close s).1.fat.files i =
      if i = sub32 s.opened_file 1
      then { s.fat.files (sub32 s.opened_file 1) with
        end_addr := start + D.length }
      else s.fat.files i) ∧
    (∀ i, i < D.length → (close s).1.flash (start + i) = D.getD i 0 % 256) := by
  obtain ⟨f1, f2, f3, f4, f5, f6, f7, f8⟩ := flushFinal_spec start D s h
  have hspos := h.start_pos
  unfold close
  rw [h.mode]
  dsimp only
  refine ⟨rfl, ?_, ?_, ?_, rfl, rfl, ?_, ?_, ?_, ?_⟩
  · rw [(writeFAT_spec _).2.2.1]
    dsimp only
    rw [f5, h.mode]
  · rw [(writeFAT_spec _).2.2.2.2.2.1]
    dsimp only
    rw [writeFIFO_buffIndex]
  · rw [(writeFAT_spec _).2.2.2.1]
  · rw [(writeFAT_spec _).2.2.2.2.2.2.2.2.1]
    dsimp only
    rw [f7, h.look]
  · rw [(writeFAT_spec _).2.1]
    dsimp only
    rw [f4]
  · intro i
    rw [(writeFAT_spec _).2.1]
    dsimp only
    rw [f4, f6, f2]
    by_cases hi : i = sub32 s.opened_file 1
    · rw [if_pos hi, if_pos hi, hi]
    · rw [if_neg hi, if_neg hi]
  · intro i hi
    try dsimp only
    rw [(writeFAT_spec _).2.2.2.2.2.2.2.2.2.1 (start + i) (by omega)]
    try dsimp only
    exact f8 i hi

/-- A second `close` on an already-closed session (the mode is still
Writing because of the `==` slip, but the cursor, frontier and open-file
index are zero): returns `Ok`, leaves the in-range table slots and the
file-area flash untouched. -/
theorem close_again_spec (s : State)
    (hm : s.mode = FlashStorageMode.write_mode) (hb : s.buff_index = 0)
    (hc : s.curr_addr = 0) (hx : s.max_erased_addr = 0)
    (ho : s.opened_file = 0) :
    (close s).2 = Status.ok ∧
    (close s).1.mode = FlashStorageMode.write_mode ∧
    (close s).1.opened_file = 0 ∧
    (close s).1.fat.file_count = s.fat.file_count ∧
    (∀ i, i < 32 → (close s).1.fat.files i = s.fat.files i) ∧
    (∀ a, 4096 ≤ a → (close s).1.flash a = s.flash a) := by
  obtain ⟨w1, w2, w3, w4, w5, w6, w7, w8, w9, w10, w11⟩ :=
    writeFIFO_spec_erase s (by rw [hc]) (by omega) (by omega) (by rw [hx])
      (by omega) (by omega)
  unfold close
  rw [hm]
  dsimp only
  refine ⟨rfl, ?_, ?_, ?_, ?_, ?_⟩
  · rw [(writeFAT_spec _).2.2.1]
    dsimp only
    rw [w6, hm]
  · rw [(writeFAT_spec _).2.2.2.1]
  · rw [(writeFAT_spec _).2.1]
    dsimp only
    rw [w5]
  · intro i hi
    rw [(writeFAT_spec _).2.1]
    dsimp only
    rw [w5, w7, ho]
    rw [if_neg (by rw [sub32_zero_one]; omega)]
  · intro a hA
    try dsimp only
    rw [(writeFAT_spec _).2.2.2.2.2.2.2.2.2.1 a hA]
    try dsimp only
    rw [w10 a, hc, hb, hx]
    have h1 : ¬ ((0 : Nat) ≤ a ∧ a < 0 + 0) := by omega
    have h2 : ¬ ((0 : Nat) ≤ a ∧ a < 0 + 4096) := by omega
    rw [if_neg h1, if_neg h2]

/-- `openFile 1` right after a session `close`: the internal re-close is
harmless (it only writes a junk table slot at unsigned index `2^32 - 1`),
the call succeeds, enters Reading mode on file 1 with the cursor at that
file's start address. -/
theorem openFile_after_close (s : State)
    (hm : s.mode = FlashStorageMode.write_mode) (hb : s.buff_index = 0)
    (hc : s.curr_addr = 0) (hx : s.max_erased_addr = 0)
    (ho : s.opened_file = 0) (hcnt : 1 ≤ s.fat.file_count) :
    (openFile s 1).2 = Status.ok ∧
    (openFile s 1).1.mode = FlashStorageMode.read_mode ∧
    (openFile s 1).1.opened_file = 1 ∧
    (openFile s 1).1.curr_addr = (s.fat.files 0).start_addr ∧
    (openFile s 1).1.fat.files 0 = s.fat.files 0 ∧
    (∀ a, 4096 ≤ a → (openFile s 1).1.flash a = s.flash a) := by
  obtain ⟨c1, c2, c3, c4, c5, c6⟩ := close_again_spec s hm hb hc hx ho
  have hcond : ¬ (1 > (close s).1.fat.file_count) := by rw [c4]; omega
  unfold openFile
  rw [if_neg hcond]
  dsimp only
  refine ⟨rfl, rfl, rfl, ?_, ?_, ?_⟩
  · show ((close s).1.fat.files (sub32 1 1)).start_addr = _
    rw [show sub32 1 1 = 0 from by decide]
    rw [c5 0 (by omega)]
  · show (close s).1.fat.files 0 = _
    exact c5 0 (by omega)
  · intro a hA
    show (close s).1.flash a = _
    exact c6 a hA

/-- `read` of the full file length from the start of a just-opened file:
no clamping occurs, the byte count comes back unchanged, and the bytes
are the device's stored bytes at the file start. -/
theorem read_full (s : State) (L : Nat)
    (hm : s.mode = FlashStorageMode.read_mode)
    (ho : s.opened_file = 1)
    (hrec : s.fat.files 0 = ⟨4096, 4096 + L⟩)
    (hcurr : s.curr_addr = 4096)
    (hL : 4096 + L < 2 ^ 32) :
    (read s W25Q64Status.ok L).2.1 = L ∧
    (read s W25Q64Status.ok L).2.2 = fastReadOp s 4096 L := by
  unfold read
  rw [if_neg (by simp [hm])]
  dsimp only
  rw [ho]
  rw [show sub32 1 1 = 0 from by decide]
  rw [hrec]
  dsimp only
  rw [hcurr]
  have hsub : sub32 (4096 + L) 4096 = L := by
    rw [@sub32_sub (4096 + L) 4096 (by omega) (by omega)]
    omega
  rw [hsub]
  have hnc : ¬ (L > L) := by omega
  rw [if_neg hnc]
  have hdev : ¬ (W25Q64Status.ok ≠ W25Q64Status.ok) := by simp
  rw [if_neg hdev]
  dsimp only
  exact ⟨rfl, rfl⟩

/-- C1: write/read fidelity round-trip — on a fresh store, `newFile`,
`write B`, `close`, `openFile 1`, `read B.length` returns exactly the
bytes `B` (for any byte sequence longer than a sector, so spanning at
least two pages and a sector boundary, that fits the device
arithmetic). -/
theorem C1_write_read_round_trip (s0 : State) (B : List Nat)
    (hm : s0.mode = FlashStorageMode.no_mode) (hb : s0.buff_index = 0)
    (hc : s0.fat.file_count = 0) (hl : s0.lookahead_erase_size = 1024)
    (htr : s0.trace = [])
    (hlen : 4097 ≤ B.length) (hlen2 : B.length + 14336 < 2 ^ 32)
    (hbytes : ∀ b ∈ B, b < 256) :
    (newFile s0).2 = Status.ok ∧
    (write (newFile s0).1 B false).2 = Status.ok ∧
    (close (write (newFile s0).1 B false).1).2 = Status.ok ∧
    (openFile (close (write (newFile s0).1 B false).1).1 1).2 = Status.ok ∧
    (read (openFile (close (write (newFile s0).1 B false).1).1 1).1
      W25Q64Status.ok B.length).2.1 = B.length ∧
    (read (openFile (close (write (newFile s0).1 B false).1).1 1).1
      W25Q64Status.ok B.length).2.2 = B := by
  obtain ⟨hok1, hinv1⟩ := newFile_SInv s0 hm hb hc hl htr
  have ht : (close s0).1 = s0 := by
    unfold close
    rw [hm]
  obtain ⟨n1, n2, n3, n4, n5, n6, n7, n8, n9, n10, n11, n12, n13, n14⟩ :=
    newFile_body_spec s0 s0 ht (by simp [hc]) (fun hne => absurd hc hne)
  have hst : newFileStart s0 = 4096 := by
    unfold newFileStart
    rw [if_neg (by simp [hc])]
  rw [hc, hst] at n10
  rw [hc] at n2 n3
  rw [Nat.zero_add] at n2 n3
  obtain ⟨hinv2, hstW⟩ := write_SInv 4096 [] (newFile s0).1 B false hinv1
    (by simp only [List.length_nil]; omega)
  rw [List.nil_append] at hinv2
  have hwf := write_fat (newFile s0).1 B false
  have hwo := write_opened (newFile s0).1 B false
  obtain ⟨c1, c2, c3, c4, c5, c6, c7, c8, c9, c10⟩ :=
    close_SInv 4096 B (write (newFile s0).1 B false).1 hinv2
  have hcnt1 : 1 ≤ (close (write (newFile s0).1 B false).1).1.fat.file_count := by
    rw [c8, hwf, n2]
  have hrec0 : (close (write (newFile s0).1 B false).1).1.fat.files 0 =
      ⟨4096, 4096 + B.length⟩ := by
    have := c9 0
    rw [hwo, n3] at this
    rw [show sub32 1 1 = 0 from by decide] at this
    rw [if_pos rfl] at this
    rw [hwf, n10] at this
    exact this
  obtain ⟨o1, o2, o3, o4, o5, o6⟩ :=
    openFile_after_close (close (write (newFile s0).1 B false).1).1
      c2 c3 c5 c6 c4 hcnt1
  rw [hrec0] at o4
  rw [hrec0] at o5
  obtain ⟨r1, r2⟩ := read_full
    (openFile (close (write (newFile s0).1 B false).1).1 1).1 B.length
    o2 o3 o5 o4 (by omega)
  refine ⟨hok1, hstW rfl, c1, o1, r1, ?_⟩
  rw [r2]
  unfold fastReadOp
  apply List.ext_getElem
  · simp
  · intro k h1 h2
    simp only [List.getElem_map, List.getElem_range]
    rw [o6 (4096 + k) (by omega)]
    rw [c10 k (by simpa using h1)]
    rw [List.getD_eq_getElem _ _ h2]
    exact Nat.mod_eq_of_lt (hbytes _ (List.getElem_mem h2))

/-- C1 witness: a fresh store and the 4097-byte sequence
`0 % 256, 1 % 256, …` (two pages and a sector boundary crossed). -/
theorem C1_witness :
    (cleanState.mode = FlashStorageMode.no_mode ∧
     cleanState.buff_index = 0 ∧
     cleanState.fat.file_count = 0 ∧
     cleanState.lookahead_erase_size = 1024 ∧
     cleanState.trace = ([] : List DevOp) ∧
     4097 ≤ ((List.range 4097).map fun b => b % 256).length ∧
     ((List.range 4097).map fun b => b % 256).length + 14336 < 2 ^ 32 ∧
     (∀ b ∈ (List.range 4097).map fun b => b % 256, b < 256)) ∧
    ((newFile cleanState).2 = Status.ok ∧
     (write (newFile cleanState).1
       ((List.range 4097).map fun b => b % 256) false).2 = Status.ok ∧
     (close (write (newFile cleanState).1
       ((List.range 4097).map fun b => b % 256) false).1).2 = Status.ok ∧
     (openFile (close (write (newFile cleanState).1
       ((List.range 4097).map fun b => b % 256) false).1).1 1).2
       = Status.ok ∧
     (read (openFile (close (write (newFile cleanState).1
         ((List.range 4097).map fun b => b % 256) false).1).1 1).1
       W25Q64Status.ok ((List.range 4097).map fun b => b % 256).length).2.1
       = ((List.range 4097).map fun b => b % 256).length ∧
     (read (openFile (close (write (newFile cleanState).1
         ((List.range 4097).map fun b => b % 256) false).1).1 1).1
       W25Q64Status.ok ((List.range 4097).map fun b => b % 256).length).2.2
       = ((List.range 4097).map fun b => b % 256)) :=
  ⟨⟨rfl, rfl, rfl, rfl, rfl,
    by simp only [List.length_map, List.length_range]; omega,
    by simp only [List.length_map, List.length_range]; norm_num,
    by
      intro b hb
      simp only [List.mem_map] at hb
      obtain ⟨a, _, rfl⟩ := hb
      omega⟩,
   C1_write_read_round_trip cleanState ((List.range 4097).map fun b => b % 256)
     rfl rfl rfl rfl rfl
     (by simp only [List.length_map, List.length_range]; omega)
     (by simp only [List.length_map, List.length_range]; norm_num)
     (by
       intro b hb
       simp only [List.mem_map] at hb
       obtain ⟨a, _, rfl⟩ := hb
       omega)⟩

end FlashStorage
